import Mathlib

/-!
Verification of `src/json-parser.py` (Audio-splitter).

The script is a five-query CLI over a JSON document loaded with Python's
`json` module.  This file shallowly embeds

* the JSON data model the script manipulates (Python values produced by
  `json.load`): `Json` / `JsonList` / `JsonMembers` below, with integer
  numbers (floats are outside the model) and well-formed Unicode strings
  (Python `str` can additionally hold lone surrogates, which Lean's `Char`
  cannot represent; no claim depends on them);
* the Python dynamic operations the script applies to the document
  (`in`, subscription, `len`, `dict.get`, `str()`, `int()`), including the
  exceptions they raise on unexpected shapes;
* `json.dumps` (default options: `ensure_ascii=True`, separators
  `", "` and `": "`) and `json.loads` (strict mode), with a proof that
  parsing inverts serialization;
* the script's `main`, as `runMain`, a function from the command line and
  the load result to the process outcome.
-/

mutual
/-- Model of a Python value produced by `json.load`: numbers restricted to
integers (floats are outside the model), strings to well-formed Unicode. -/
inductive Json where
  | null : Json
  | bool (b : Bool) : Json
  | num (n : Int) : Json
  | str (s : String) : Json
  | arr (elems : JsonList) : Json
  | obj (members : JsonMembers) : Json
deriving DecidableEq, Repr
/-- Model of a Python list of JSON values. -/
inductive JsonList where
  | nil : JsonList
  | cons (hd : Json) (tl : JsonList) : JsonList
deriving DecidableEq, Repr
/-- Model of a Python dict with string keys, as an ordered association list
(Python dicts preserve insertion order). -/
inductive JsonMembers where
  | nil : JsonMembers
  | cons (k : String) (v : Json) (tl : JsonMembers) : JsonMembers
deriving DecidableEq, Repr
end

/-- Number of elements of a modelled list (`len` on a Python list). -/
def JsonList.length : JsonList → Nat
  | .nil => 0
  | .cons _ tl => tl.length + 1

/-- Zero-based element access on a modelled list. -/
def JsonList.get? : JsonList → Nat → Option Json
  | .nil, _ => none
  | .cons hd _, 0 => some hd
  | .cons _ tl, i + 1 => tl.get? i

/-- Number of entries of a modelled dict (`len` on a Python dict). -/
def JsonMembers.length : JsonMembers → Nat
  | .nil => 0
  | .cons _ _ tl => tl.length + 1

/-- Value stored under a key, first occurrence (a Python dict holds each key
once, so on dict-shaped values this is the key's value). -/
def JsonMembers.lookup : JsonMembers → String → Option Json
  | .nil, _ => none
  | .cons k v tl, key => if k = key then some v else tl.lookup key

/-- Key-membership test (`key in d` on a Python dict). -/
def JsonMembers.hasKey (ms : JsonMembers) (key : String) : Bool :=
  (ms.lookup key).isSome

/-- Exceptions the script can raise through the Python operations it uses. -/
inductive PyExn where
  | typeError : PyExn
  | valueError : PyExn
  | keyError : PyExn
  | indexError : PyExn
  | attributeError : PyExn
deriving DecidableEq, Repr

/-- Decision procedure for one list being a contiguous run of another,
modelling Python's substring test. -/
def subRun (pat : List Char) : List Char → Bool
  | [] => pat.isEmpty
  | c :: tl => (pat.isPrefixOf (c :: tl) : Bool) || subRun pat tl

/-- Membership test `key in data`, with Python semantics per runtime type:
key lookup on a dict, element equality on a list (a string equals only an
equal string), substring test on a string, `TypeError` otherwise. -/
def pyContains (data : Json) (key : String) : Except PyExn Bool :=
  match data with
  | .obj ms => .ok (ms.hasKey key)
  | .arr xs => .ok (listHasStr xs key)
  | .str s => .ok (pat.isEmpty || subRun pat s.data : Bool)
  | _ => .error .typeError
where pat : List Char := key.data
      listHasStr : JsonList → String → Bool
        | .nil, _ => false
        | .cons hd tl, k => (hd = Json.str k : Bool) || listHasStr tl k

/-- Subscription `data[key]` with a string key: dict lookup (`KeyError` when
absent), `TypeError` on lists and strings (indices must be integers) and on
non-subscriptable values. -/
def pySubscriptStr (data : Json) (key : String) : Except PyExn Json :=
  match data with
  | .obj ms =>
    match ms.lookup key with
    | some v => .ok v
    | none => .error .keyError
  | _ => .error .typeError

/-- Length `len(data)`: defined on lists, strings (code-point count) and
dicts; `TypeError` otherwise. -/
def pyLen (data : Json) : Except PyExn Nat :=
  match data with
  | .arr xs => .ok xs.length
  | .str s => .ok s.length
  | .obj ms => .ok ms.length
  | _ => .error .typeError

/-- List subscription `xs[i]` with an integer index: negative indices wrap
from the end, out-of-range raises `IndexError`. -/
def pyListGet (xs : JsonList) (i : Int) : Except PyExn Json :=
  pick (if i < 0 then (xs.length : Int) + i else i)
where pick (j : Int) : Except PyExn Json :=
  if j < 0 then .error .indexError
  else
    match xs.get? j.toNat with
    | some v => .ok v
    | none => .error .indexError

/-- String subscription `s[i]`: yields the one-character string at the
code-point position, with Python's wrapping and `IndexError` rules. -/
def pyStrGet (s : String) (i : Int) : Except PyExn Json :=
  pick (if i < 0 then (s.length : Int) + i else i)
where pick (j : Int) : Except PyExn Json :=
  if j < 0 then .error .indexError
  else
    match s.data.get? j.toNat with
    | some c => .ok (.str (String.singleton c))
    | none => .error .indexError

/-- Subscription `data[i]` with an integer index, per runtime type.  On a
dict the key set of a `json.load` result holds only strings, so an integer
key always raises `KeyError`. -/
def pySubscriptInt (data : Json) (i : Int) : Except PyExn Json :=
  match data with
  | .arr xs => pyListGet xs i
  | .str s => pyStrGet s i
  | .obj _ => .error .keyError
  | _ => .error .typeError

/-- Method call `d.get(field)` returning the hit or nothing: only dicts have
the attribute, every other runtime type raises `AttributeError`. -/
def pyGet (data : Json) (field : String) : Except PyExn (Option Json) :=
  match data with
  | .obj ms => .ok (ms.lookup field)
  | _ => .error .attributeError

/-- Character for the decimal digit `d < 10`. -/
def decDigit (d : Nat) : Char := Char.ofNat (48 + d)

/-- Decimal digit characters of `n`, most significant first, as Python's
`str` renders a non-negative integer. -/
def decChars (n : Nat) : List Char :=
  if n < 10 then [decDigit n] else decChars (n / 10) ++ [decDigit (n % 10)]
termination_by n
decreasing_by simp_wf; omega

/-- Stringification `str(n)` of a non-negative Python integer. -/
def pyNatStr (n : Nat) : String := ⟨decChars n⟩

/-- Stringification `str(i)` of a Python integer: decimal digits behind an
optional minus sign. -/
def pyIntStr (i : Int) : String :=
  if i < 0 then "-" ++ pyNatStr i.natAbs else pyNatStr i.natAbs

/-- Value of a decimal digit character, when it is one. -/
def decVal? (c : Char) : Option Nat :=
  if 48 ≤ c.toNat ∧ c.toNat ≤ 57 then some (c.toNat - 48) else none

/-- Accumulating loop of `int()` over the digit run, accepting a single
underscore between two digits (Python's grouping rule). -/
def intDigitsLoop (acc : Nat) : List Char → Option Nat
  | [] => some acc
  | '_' :: c :: tl =>
    match decVal? c with
    | some d => intDigitsLoop (acc * 10 + d) tl
    | none => none
  | c :: tl =>
    match decVal? c with
    | some d => intDigitsLoop (acc * 10 + d) tl
    | none => none

/-- Whitespace stripped by `int()` around the literal (ASCII part of
Python's notion of whitespace). -/
def pySpace (c : Char) : Bool :=
  c = ' ' || c = '\t' || c = '\n' || c = '\r' || c = '\x0b' || c = '\x0c'

/-- Digit run of an `int()` literal: at least one digit, underscores only
between digits. -/
def intDigits (cs : List Char) : Option Nat :=
  match cs with
  | c :: tl =>
    match decVal? c with
    | some d => intDigitsLoop d tl
    | none => none
  | [] => none

/-- Conversion `int(s)` in base 10: optional surrounding whitespace, optional
sign, then a decimal digit run; anything else raises `ValueError` (`none`).
Python additionally accepts non-ASCII decimal digits and whitespace, which no
claim exercises. -/
def pyInt (s : String) : Option Int :=
  match (((s.data.dropWhile pySpace).reverse.dropWhile pySpace).reverse : List Char) with
  | '+' :: tl => (intDigits tl).map fun n => (n : Int)
  | '-' :: tl => (intDigits tl).map fun n => -(n : Int)
  | cs => (intDigits cs).map fun n => (n : Int)

/-- Character for the hexadecimal digit `d < 16`, lowercase as Python
formats `\u` escapes. -/
def hexDigit (d : Nat) : Char :=
  if d < 10 then Char.ofNat (48 + d) else Char.ofNat (87 + d)

/-- Four-digit lowercase hexadecimal rendering of `n < 0x10000`. -/
def hex4Chars (n : Nat) : List Char :=
  [hexDigit (n / 4096 % 16), hexDigit (n / 256 % 16), hexDigit (n / 16 % 16), hexDigit (n % 16)]

/-- Escape of one character inside a `json.dumps` string with the default
`ensure_ascii=True`: the two-character escapes of the C encoder, `\uXXXX`
for other characters outside `0x20`–`0x7e`, surrogate pairs beyond
`0xffff`. -/
def escChar (c : Char) : List Char :=
  if c = '"' then ['\\', '"']
  else if c = '\\' then ['\\', '\\']
  else if c = '\x08' then ['\\', 'b']
  else if c = '\t' then ['\\', 't']
  else if c = '\n' then ['\\', 'n']
  else if c = '\x0c' then ['\\', 'f']
  else if c = '\r' then ['\\', 'r']
  else if c.toNat < 0x20 ∨ 0x7e < c.toNat then
    if c.toNat < 0x10000 then '\\' :: 'u' :: hex4Chars c.toNat
    else
      '\\' :: 'u' :: hex4Chars (0xd800 + (c.toNat - 0x10000) / 0x400)
        ++ '\\' :: 'u' :: hex4Chars (0xdc00 + (c.toNat - 0x10000) % 0x400)
  else [c]

/-- Escape of a whole string body under `ensure_ascii=True`. -/
def escList : List Char → List Char
  | [] => []
  | c :: tl => escChar c ++ escList tl

mutual
/-- Serialization `json.dumps(v)` with the module defaults, as characters:
`ensure_ascii=True`, item separator `", "`, key separator `": "`. -/
def dumpsChars : Json → List Char
  | .null => "null".data
  | .bool true => "true".data
  | .bool false => "false".data
  | .num n => (pyIntStr n).data
  | .str s => '"' :: escList s.data ++ ['"']
  | .arr xs => '[' :: dumpsElems xs ++ [']']
  | .obj ms => '\x7b' :: dumpsMembers ms ++ ['\x7d']
/-- Array elements joined by `", "`. -/
def dumpsElems : JsonList → List Char
  | .nil => []
  | .cons hd .nil => dumpsChars hd
  | .cons hd tl => dumpsChars hd ++ ',' :: ' ' :: dumpsElems tl
/-- Object members, each `"key": value`, joined by `", "`. -/
def dumpsMembers : JsonMembers → List Char
  | .nil => []
  | .cons k v .nil => '"' :: escList k.data ++ '"' :: ':' :: ' ' :: dumpsChars v
  | .cons k v tl =>
    '"' :: escList k.data ++ '"' :: ':' :: ' ' :: dumpsChars v ++ ',' :: ' ' :: dumpsMembers tl
end

/-- Serialization `json.dumps(v)` with the module defaults, as a string. -/
def dumps (v : Json) : String := ⟨dumpsChars v⟩

/-- Eight-digit lowercase hexadecimal rendering, for `\U` escapes in
Python's `repr`. -/
def hex8Chars (n : Nat) : List Char :=
  hex4Chars (n / 0x10000 % 0x10000) ++ hex4Chars (n % 0x10000)

/-- Two-digit lowercase hexadecimal rendering, for `\x` escapes in
Python's `repr`. -/
def hex2Chars (n : Nat) : List Char := [hexDigit (n / 16 % 16), hexDigit (n % 16)]

/-- Printability test used by the model of Python's `repr` of a string.
The model is exact below U+0100: ASCII printables `0x20`–`0x7e` and the
printable part of the Latin-1 supplement, `0xa1`–`0xff` without the soft
hyphen `0xad` (CPython escapes the C0 and C1 controls, `0x7f`, the
no-break space `0xa0` and `0xad`, and prints the rest of Latin-1
literally).  From U+0100 on CPython consults the Unicode category
database, which is outside the model: such characters are treated as
escaped here, so theorems about printed values restrict strings inside
compound values to Latin-1, while a plain string value prints verbatim at
every code point. -/
def reprPrintable (c : Char) : Bool :=
  (0x20 ≤ c.toNat && c.toNat < 0x7f)
    || (0xa1 ≤ c.toNat && c.toNat < 0x100 && c.toNat ≠ 0xad)

/-- Escape of one character inside `repr` of a Python string delimited by
`q`: backslash and the delimiter are escaped, `\n`/`\r`/`\t` shortened,
non-printable characters rendered `\xXX`, `\uXXXX` or `\UXXXXXXXX` by size. -/
def reprChar (q c : Char) : List Char :=
  if c = '\\' then ['\\', '\\']
  else if c = q then ['\\', q]
  else if c = '\n' then ['\\', 'n']
  else if c = '\r' then ['\\', 'r']
  else if c = '\t' then ['\\', 't']
  else if reprPrintable c then [c]
  else if c.toNat < 0x100 then '\\' :: 'x' :: hex2Chars c.toNat
  else if c.toNat < 0x10000 then '\\' :: 'u' :: hex4Chars c.toNat
  else '\\' :: 'U' :: hex8Chars c.toNat

/-- Body of `repr` of a Python string under delimiter `q`. -/
def reprBody (q : Char) : List Char → List Char
  | [] => []
  | c :: tl => reprChar q c ++ reprBody q tl

/-- Stringification `repr(s)` of a Python string: single-quoted, except that
a string holding a single quote and no double quote is double-quoted.
Exact whenever every character of `s` lies below U+0100; see
`reprPrintable` for the treatment of higher code points, and `strExact`
for the domain on which theorems state `str()` output. -/
def pyStrRepr (s : String) : String :=
  let q : Char :=
    if s.data.contains ('\x27') && !s.data.contains '"' then '"' else '\x27'
  ⟨q :: reprBody q s.data ++ [q]⟩

mutual
/-- Stringification `repr(v)` of a loaded JSON value, as Python renders it:
`None`, `True`/`False`, decimal integers, quoted strings, and bracketed
containers joined by `", "` with `repr` keys and values. -/
def pyRepr : Json → String
  | .null => "None"
  | .bool true => "True"
  | .bool false => "False"
  | .num n => pyIntStr n
  | .str s => pyStrRepr s
  | .arr xs => "[" ++ pyReprElems xs ++ "]"
  | .obj ms => "\x7b" ++ pyReprMembers ms ++ "\x7d"
/-- List elements of a `repr`, joined by `", "`. -/
def pyReprElems : JsonList → String
  | .nil => ""
  | .cons hd .nil => pyRepr hd
  | .cons hd tl => pyRepr hd ++ ", " ++ pyReprElems tl
/-- Dict entries of a `repr`, each `key: value`, joined by `", "`. -/
def pyReprMembers : JsonMembers → String
  | .nil => ""
  | .cons k v .nil => pyStrRepr k ++ ": " ++ pyRepr v
  | .cons k v tl => pyStrRepr k ++ ": " ++ pyRepr v ++ ", " ++ pyReprMembers tl
end

/-- Stringification `str(v)`, the text `print` writes for a loaded JSON
value: a string prints as itself, everything else through `repr`. -/
def pyStr : Json → String
  | .str s => s
  | v => pyRepr v

mutual
/-- Every string inside the value lies entirely below U+0100, the fragment
on which the model of `repr` is exact. -/
def latin1J : Json → Bool
  | .str s => s.data.all fun c => c.toNat < 0x100
  | .arr xs => latin1L xs
  | .obj ms => latin1M ms
  | _ => true
/-- `latin1J` over the elements of a list. -/
def latin1L : JsonList → Bool
  | .nil => true
  | .cons hd tl => latin1J hd && latin1L tl
/-- `latin1J` over the keys and values of an object. -/
def latin1M : JsonMembers → Bool
  | .nil => true
  | .cons k v tl => (k.data.all fun c => c.toNat < 0x100) && latin1J v && latin1M tl
end

/-- Domain on which the model states `str(v)` exactly: a plain string
prints verbatim at every code point, and any other value renders through
`repr`, exact when its strings stay below U+0100 (printability of higher
code points needs the Unicode category database; see `reprPrintable`). -/
def strExact : Json → Bool
  | .str _ => true
  | v => latin1J v

/-- Value of a hexadecimal digit character in either case, as `json.loads`
reads `\u` escapes. -/
def hexVal? (c : Char) : Option Nat :=
  if 48 ≤ c.toNat ∧ c.toNat ≤ 57 then some (c.toNat - 48)
  else if 97 ≤ c.toNat ∧ c.toNat ≤ 102 then some (c.toNat - 87)
  else if 65 ≤ c.toNat ∧ c.toNat ≤ 70 then some (c.toNat - 55)
  else none

/-- Value of a four-digit hexadecimal escape payload. -/
def hex4? (a b c d : Char) : Option Nat :=
  match hexVal? a, hexVal? b, hexVal? c, hexVal? d with
  | some va, some vb, some vc, some vd => some (((va * 16 + vb) * 16 + vc) * 16 + vd)
  | _, _, _, _ => none

/-- Scalar-value constructor: the code point as a `Char` when it is one.
Python additionally admits lone surrogates in `str`; those are outside the
model (see the header), so the parser rejects them rather than building
them. -/
def charFromNat? (n : Nat) : Option Char :=
  if n.isValidChar then some (Char.ofNat n) else none

/-- Continuation of a string-body parse with one decoded character: prefix
it to the rest of the parse when the character exists. -/
def litChar (recur : List Char → Option (List Char × List Char)) (ch? : Option Char)
    (r : List Char) : Option (List Char × List Char) :=
  match ch? with
  | some ch => (recur r).map fun p => (ch :: p.1, p.2)
  | none => none

/-- Completion of a surrogate pair whose low half's hex value is `m?`. -/
def pairEsc (recur : List Char → Option (List Char × List Char)) (n : Nat)
    (m? : Option Nat) (r : List Char) : Option (List Char × List Char) :=
  match m? with
  | none => none
  | some m =>
    if 0xdc00 ≤ m ∧ m ≤ 0xdfff then
      litChar recur (charFromNat? (0x10000 + (n - 0xd800) * 0x400 + (m - 0xdc00))) r
    else none

/-- Decoder of a `\uXXXX` escape whose hex value is `n?`: a high surrogate
looks ahead for its escaped low partner (Python would keep an unpaired
surrogate, which the model cannot represent, so every lone surrogate is
rejected: see `charFromNat?`); any other value stands for its character. -/
def uEsc (recur : List Char → Option (List Char × List Char)) (n? : Option Nat)
    (r : List Char) : Option (List Char × List Char) :=
  match n? with
  | none => none
  | some n =>
    if 0xd800 ≤ n ∧ n ≤ 0xdbff then
      match r with
      | e1 :: e2 :: a2 :: b2 :: c3 :: d2 :: r3 =>
        if e1 = '\\' ∧ e2 = 'u' then pairEsc recur n (hex4? a2 b2 c3 d2) r3 else none
      | _ => none
    else litChar recur (charFromNat? n) r

/-- Decoder for the character after a backslash: the short escapes or a
`\uXXXX` escape through `uEsc`. -/
def escStep (recur : List Char → Option (List Char × List Char)) :
    List Char → Option (List Char × List Char)
  | [] => none
  | e :: r =>
    if e = '"' then (recur r).map fun p => ('"' :: p.1, p.2)
    else if e = '\\' then (recur r).map fun p => ('\\' :: p.1, p.2)
    else if e = '/' then (recur r).map fun p => ('/' :: p.1, p.2)
    else if e = 'b' then (recur r).map fun p => ('\x08' :: p.1, p.2)
    else if e = 'f' then (recur r).map fun p => ('\x0c' :: p.1, p.2)
    else if e = 'n' then (recur r).map fun p => ('\n' :: p.1, p.2)
    else if e = 'r' then (recur r).map fun p => ('\r' :: p.1, p.2)
    else if e = 't' then (recur r).map fun p => ('\t' :: p.1, p.2)
    else if e = 'u' then
      match r with
      | a :: b :: c2 :: d :: r2 => uEsc recur (hex4? a b c2 d) r2
      | _ => none
    else none

/-- Body of a JSON string after the opening quote, as `json.loads` reads
it in strict mode, on `fuel` (one unit per literal character or escape
group, so any fuel beyond the input length suffices): literal characters
above `0x1f`, backslash escapes through `escStep`.  Yields the decoded
characters and the input after the closing quote. -/
def parseSB : Nat → List Char → Option (List Char × List Char)
  | 0, _ => none
  | fuel + 1, cs =>
    match cs with
    | [] => none
    | c :: tl =>
      if c = '"' then some ([], tl)
      else if c = '\\' then escStep (parseSB fuel) tl
      else if c.toNat < 0x20 then none
      else (parseSB fuel tl).map fun p => (c :: p.1, p.2)

/-- JSON whitespace, as skipped between tokens by `json.loads`. -/
def skipWs : List Char → List Char
  | c :: tl => if c = ' ' || c = '\t' || c = '\n' || c = '\r' then skipWs tl else c :: tl
  | [] => []

/-- Maximal decimal digit run with its value accumulated onto `acc`,
following the integer part of the scanner's number regular expression. -/
def digitLoop (acc : Nat) : List Char → Nat × List Char
  | [] => (acc, [])
  | c :: tl =>
    match decVal? c with
    | some d => digitLoop (acc * 10 + d) tl
    | none => (acc, c :: tl)

/-- Test for a fraction or exponent mark right after the integer part:
such input continues as a float, which is outside the model, so the parser
rejects it (Python would succeed with a float). -/
def floatMark : List Char → Bool
  | c :: _ => c = '.' || c = 'e' || c = 'E'
  | [] => false

/-- Unsigned integer of the number grammar: `0` with no further digit, or a
nonzero-led maximal digit run.  (On a digit after a leading `0` the scanner
stops the number at `0` and then fails on the stray digit in every context,
so rejecting here is observationally the same.) -/
def parseUNum : List Char → Option (Nat × List Char)
  | [] => none
  | c :: tl =>
    if c = '0' then
      if (decVal? (tl.headD ' ')).isSome || floatMark tl then none else some (0, tl)
    else
      match decVal? c with
      | some d =>
        match digitLoop d tl with
        | (n, r) => if floatMark r then none else some (n, r)
      | none => none

/-- Signed integer of the number grammar: optional leading minus. -/
def parseNum : List Char → Option (Int × List Char)
  | [] => none
  | c :: tl =>
    if c = '-' then (parseUNum tl).map fun p => (-(p.1 : Int), p.2)
    else (parseUNum (c :: tl)).map fun p => ((p.1 : Int), p.2)

/-- Replacement of the entry under key `k`, in place, keeping the original
position (Python dict update semantics). -/
def updEntry : JsonMembers → String → Json → JsonMembers
  | .nil, k, v => .cons k v .nil
  | .cons k2 v2 tl, k, v =>
    if k2 = k then .cons k2 v tl else .cons k2 v2 (updEntry tl k v)

/-- Loop of `dict(pairs)`: inserts each parsed member in order, later
duplicates overriding the value at the first occurrence's position. -/
def pyDictLoop (acc : JsonMembers) : JsonMembers → JsonMembers
  | .nil => acc
  | .cons k v tl => pyDictLoop (updEntry acc k v) tl

/-- Model of `dict(pairs)` over the members in textual order, as the
scanner builds a JSON object. -/
def pyDict (ms : JsonMembers) : JsonMembers := pyDictLoop .nil ms

mutual
/-- Model of the `json.loads` scanner at a value position, on `fuel` for
totality: skips whitespace, dispatches on the first character, rejects
anything else (`Expecting value`).  Floats, `NaN` and `Infinity` are
outside the model and rejected. -/
def parseVal : Nat → List Char → Option (Json × List Char)
  | 0, _ => none
  | fuel + 1, cs =>
    match skipWs cs with
    | [] => none
    | c :: r =>
      if c = 'n' then
        match r with
        | 'u' :: 'l' :: 'l' :: r2 => some (.null, r2)
        | _ => none
      else if c = 't' then
        match r with
        | 'r' :: 'u' :: 'e' :: r2 => some (.bool true, r2)
        | _ => none
      else if c = 'f' then
        match r with
        | 'a' :: 'l' :: 's' :: 'e' :: r2 => some (.bool false, r2)
        | _ => none
      else if c = '"' then
        match parseSB fuel r with
        | some (cs2, r2) => some (.str ⟨cs2⟩, r2)
        | none => none
      else if c = '[' then
        match skipWs r with
        | [] => none
        | c2 :: r2 =>
          if c2 = ']' then some (.arr .nil, r2)
          else
            match parseElems fuel (c2 :: r2) with
            | some (xs, r3) => some (.arr xs, r3)
            | none => none
      else if c = '\x7b' then
        match skipWs r with
        | [] => none
        | c2 :: r2 =>
          if c2 = '\x7d' then some (.obj .nil, r2)
          else
            match parseMembers fuel (c2 :: r2) with
            | some (ms, r3) => some (.obj (pyDict ms), r3)
            | none => none
      else if c = '-' || (decVal? c).isSome then
        match parseNum (c :: r) with
        | some (n, r2) => some (.num n, r2)
        | none => none
      else none
/-- One-or-more comma-separated array elements up to the closing bracket
(the empty array is handled at the value level). -/
def parseElems : Nat → List Char → Option (JsonList × List Char)
  | 0, _ => none
  | fuel + 1, cs =>
    match parseVal fuel cs with
    | none => none
    | some (v, r) =>
      match skipWs r with
      | ',' :: r2 =>
        match parseElems fuel r2 with
        | some (xs, r3) => some (.cons v xs, r3)
        | none => none
      | ']' :: r2 => some (.cons v .nil, r2)
      | _ => none
/-- One-or-more `"key": value` members up to the closing brace, starting at
the opening quote of the first key (the empty object is handled at the
value level); the member list is returned in textual order. -/
def parseMembers : Nat → List Char → Option (JsonMembers × List Char)
  | 0, _ => none
  | fuel + 1, cs =>
    match cs with
    | '"' :: r =>
      match parseSB fuel r with
      | none => none
      | some (kcs, r1) =>
        match skipWs r1 with
        | ':' :: r2 =>
          match parseVal fuel r2 with
          | none => none
          | some (v, r3) =>
            match skipWs r3 with
            | ',' :: r4 =>
              match parseMembers fuel (skipWs r4) with
              | some (ms, r5) => some (.cons ⟨kcs⟩ v ms, r5)
              | none => none
            | c :: r4 => if c = '\x7d' then some (.cons ⟨kcs⟩ v .nil, r4) else none
            | [] => none
        | _ => none
    | _ => none
end

/-- Model of `json.loads`: parse one value with enough fuel and require
only whitespace after it. -/
def loads (s : String) : Option Json :=
  match parseVal (s.data.length + 1) s.data with
  | some (v, r) =>
    match skipWs r with
    | [] => some v
    | _ => none
  | none => none

/-- Key uniqueness of one object layer. -/
def keyNodup : JsonMembers → Bool
  | .nil => true
  | .cons k _ tl => !tl.hasKey k && keyNodup tl

mutual
/-- Well-formedness of a modelled value as a `json.load` result: every
object layer holds each key once (a Python dict cannot hold duplicates). -/
def wfJ : Json → Bool
  | .null => true
  | .bool _ => true
  | .num _ => true
  | .str _ => true
  | .arr xs => wfL xs
  | .obj ms => keyNodup ms && wfM ms
/-- Well-formedness of every element. -/
def wfL : JsonList → Bool
  | .nil => true
  | .cons hd tl => wfJ hd && wfL tl
/-- Well-formedness of every member value. -/
def wfM : JsonMembers → Bool
  | .nil => true
  | .cons _ v tl => wfJ v && wfM tl
end

/-- Outcome of `open(json_file)` followed by `json.load(f)`: the parsed
document, a `json.JSONDecodeError` carrying its message, or a
`FileNotFoundError`. -/
inductive LoadResult where
  | ok (data : Json) : LoadResult
  | decodeErr (msg : String) : LoadResult
  | fileMissing : LoadResult
deriving DecidableEq, Repr

/-- Observable outcome of one invocation: the strings passed to `print` on
standard output and on standard error (each followed by a newline on the
real stream) with the `sys.exit` code, or termination by an uncaught
exception (which aborts with a traceback on standard error), with whatever
standard output was printed before it. -/
inductive Outcome where
  | exits (out : List String) (err : List String) (code : Nat) : Outcome
  | raised (exn : PyExn) (out : List String) : Outcome
deriving DecidableEq, Repr

/-- Usage text the script prints on fewer than two arguments, one entry per
`print` call. -/
def usageLines : List String :=
  ["Usage: json-parser.py <json_file> <query>",
   "Queries:",
   "  validate              - Validate JSON syntax",
   "  count                 - Count splits",
   "  has_splits            - Check if splits array exists",
   "  get_split N           - Get split at index N as JSON",
   "  get_field N field     - Get field from split N"]

/-- Body of the `has_splits` query: the test
`"splits" in data and isinstance(data["splits"], list)` printed as
`true`/`false`, with `and` short-circuiting. -/
def hasSplitsBody (data : Json) : Outcome :=
  match pyContains data "splits" with
  | .error e => .raised e []
  | .ok false => .exits ["false"] [] 0
  | .ok true =>
    match pySubscriptStr data "splits" with
    | .error e => .raised e []
    | .ok (.arr _) => .exits ["true"] [] 0
    | .ok _ => .exits ["false"] [] 0

/-- Body of the `count` query: `len(data["splits"])` printed when
`"splits" in data`, else `0`. -/
def countBody (data : Json) : Outcome :=
  match pyContains data "splits" with
  | .error e => .raised e []
  | .ok false => .exits ["0"] [] 0
  | .ok true =>
    match pySubscriptStr data "splits" with
    | .error e => .raised e []
    | .ok splits =>
      match pyLen splits with
      | .error e => .raised e []
      | .ok n => .exits [pyNatStr n] [] 0

/-- Body of the `get_split` query once the index is converted: the guard
`"splits" in data and 0 <= index < len(data["splits"])`, evaluated with
Python's short-circuit and chained-comparison order, then
`json.dumps(data["splits"][index])` or the literal `{}` fallback. -/
def getSplitBody (data : Json) (index : Int) : Outcome :=
  match pyContains data "splits" with
  | .error e => .raised e []
  | .ok false => .exits ["\x7b\x7d"] [] 0
  | .ok true =>
    if 0 ≤ index then
      match pySubscriptStr data "splits" with
      | .error e => .raised e []
      | .ok splits =>
        match pyLen splits with
        | .error e => .raised e []
        | .ok n =>
          if index < (n : Int) then
            match pySubscriptInt splits index with
            | .error e => .raised e []
            | .ok v => .exits [dumps v] [] 0
          else .exits ["\x7b\x7d"] [] 0
    else .exits ["\x7b\x7d"] [] 0

/-- Body of the `get_field` query once the index is converted: the same
range guard as `get_split`, then `split.get(field, "")` printed through
`str`, with the empty string printed when the guard fails. -/
def getFieldBody (data : Json) (index : Int) (field : String) : Outcome :=
  match pyContains data "splits" with
  | .error e => .raised e []
  | .ok false => .exits [""] [] 0
  | .ok true =>
    if 0 ≤ index then
      match pySubscriptStr data "splits" with
      | .error e => .raised e []
      | .ok splits =>
        match pyLen splits with
        | .error e => .raised e []
        | .ok n =>
          if index < (n : Int) then
            match pySubscriptInt splits index with
            | .error e => .raised e []
            | .ok split =>
              match pyGet split field with
              | .error e => .raised e []
              | .ok (some v) => .exits [pyStr v] [] 0
              | .ok none => .exits [""] [] 0
          else .exits [""] [] 0
    else .exits [""] [] 0

/-- Model of `main()`: `argv` is the full `sys.argv` (script name first) and
`ld` the outcome of opening and parsing `argv[1]`.  The structure follows
the source: usage check, load with its two handlers, then the `if`/`elif`
dispatch on the query name. -/
def runMain (argv : List String) (ld : LoadResult) : Outcome :=
  match argv with
  | _prog :: file :: query :: rest =>
    match ld with
    | .decodeErr msg => .exits [] ["Invalid JSON: " ++ msg] 1
    | .fileMissing => .exits [] ["File not found: " ++ file] 1
    | .ok data =>
      if query = "validate" then .exits ["valid"] [] 0
      else if query = "has_splits" then hasSplitsBody data
      else if query = "count" then countBody data
      else if query = "get_split" then
        match rest with
        | [] => .exits [] ["Missing split index"] 1
        | idxArg :: _ =>
          match pyInt idxArg with
          | none => .raised .valueError []
          | some index => getSplitBody data index
      else if query = "get_field" then
        match rest with
        | idxArg :: fieldArg :: _ =>
          match pyInt idxArg with
          | none => .raised .valueError []
          | some index => getFieldBody data index fieldArg
        | _ => .exits [] ["Missing split index or field name"] 1
      else .exits [] ["Unknown query: " ++ query] 1
  | _ => .exits [] usageLines 1

/-- Reference output of `has_splits` on an object Document, for the amended
claim: `true` exactly when the key `splits` holds a list. -/
def hasSplitsOut (ms : JsonMembers) : String :=
  match ms.lookup "splits" with
  | some (.arr _) => "true"
  | _ => "false"

theorem JsonList.get?_some_lt :
    ∀ {xs : JsonList} {i : Nat} {v : Json}, xs.get? i = some v → i < xs.length
  | .nil, i, v, h => by simp [JsonList.get?] at h
  | .cons hd tl, 0, v, _ => by simp [JsonList.length]
  | .cons hd tl, i + 1, v, h => by
    have := @get?_some_lt tl i v h
    simp only [JsonList.length]
    omega

theorem runMain_get_split_red (p f s : String) (r : List String) (d : Json) :
    runMain (p :: f :: "get_split" :: s :: r) (.ok d)
      = (match pyInt s with
         | none => .raised .valueError []
         | some index => getSplitBody d index) := rfl

theorem runMain_get_field_red (p f s fld : String) (r : List String) (d : Json) :
    runMain (p :: f :: "get_field" :: s :: fld :: r) (.ok d)
      = (match pyInt s with
         | none => .raised .valueError []
         | some index => getFieldBody d index fld) := rfl

theorem runMain_has_splits_red (p f : String) (r : List String) (d : Json) :
    runMain (p :: f :: "has_splits" :: r) (.ok d) = hasSplitsBody d := rfl

theorem runMain_count_red (p f : String) (r : List String) (d : Json) :
    runMain (p :: f :: "count" :: r) (.ok d) = countBody d := rfl

/-- C2 counterexample: on the Document `5` (a JSON number, not an object)
the `has_splits` query does not print `false` with exit 0; the membership
test `"splits" in data` raises an uncaught `TypeError`. -/
theorem has_splits_nonobject_raises :
    runMain ["json-parser.py", "splits.json", "has_splits"] (.ok (.num 5))
        = .raised .typeError []
    ∧ ∀ o e : List String,
        runMain ["json-parser.py", "splits.json", "has_splits"] (.ok (.num 5))
          ≠ .exits o e 0 := by
  refine ⟨rfl, fun o e h => ?_⟩
  rw [show runMain ["json-parser.py", "splits.json", "has_splits"] (.ok (.num 5))
        = Outcome.raised .typeError [] from rfl] at h
  exact Outcome.noConfusion h

/-- C2 amended: on every Document that is a JSON object, `has_splits`
prints `true` when the key `splits` holds a list, `false` otherwise
(absent key or non-list value), and exits 0.  (On Documents that are not
objects the query can instead end in an uncaught `TypeError`.) -/
theorem has_splits_object_spec (p f : String) (r : List String) (ms : JsonMembers) :
    runMain (p :: f :: "has_splits" :: r) (.ok (.obj ms))
      = .exits [hasSplitsOut ms] [] 0 := by
  rw [runMain_has_splits_red]
  cases h : ms.lookup "splits" with
  | none => simp [hasSplitsBody, pyContains, JsonMembers.hasKey, h, hasSplitsOut]
  | some v =>
    cases v <;>
      simp [hasSplitsBody, pyContains, JsonMembers.hasKey, h, hasSplitsOut, pySubscriptStr]

/-- C4 counterexample: on the object Document whose `splits` key holds the
number `42`, the `count` query does not print an element count with exit 0;
`len(42)` raises an uncaught `TypeError`.  The further conjuncts chart the
non-object Documents: a number Document raises `TypeError` at the
membership test, a string or list Document containing `splits` (as
substring or element) raises `TypeError` at the subscription, and a string
Document without it still prints `0` with exit 0. -/
theorem count_unsized_raises :
    runMain ["json-parser.py", "splits.json", "count"]
        (.ok (.obj (.cons "splits" (.num 42) .nil))) = .raised .typeError []
    ∧ (∀ o e : List String,
        runMain ["json-parser.py", "splits.json", "count"]
            (.ok (.obj (.cons "splits" (.num 42) .nil)))
          ≠ .exits o e 0)
    ∧ runMain ["json-parser.py", "splits.json", "count"] (.ok (.num 5))
      = .raised .typeError []
    ∧ runMain ["json-parser.py", "splits.json", "count"] (.ok (.str "hello"))
      = .exits ["0"] [] 0
    ∧ runMain ["json-parser.py", "splits.json", "count"] (.ok (.str "presplitsend"))
      = .raised .typeError []
    ∧ runMain ["json-parser.py", "splits.json", "count"]
        (.ok (.arr (.cons (.str "splits") .nil))) = .raised .typeError []
    ∧ runMain ["json-parser.py", "splits.json", "count"]
        (.ok (.arr (.cons (.num 1) .nil))) = .exits ["0"] [] 0 := by
  refine ⟨rfl, fun o e h => ?_, rfl, rfl, rfl, rfl, rfl⟩
  rw [show runMain ["json-parser.py", "splits.json", "count"]
        (.ok (.obj (.cons "splits" (.num 42) .nil)))
        = Outcome.raised .typeError [] from rfl] at h
  exact Outcome.noConfusion h

/-- C4 amended: on every Document that is a JSON object, `count` prints the
length of the `splits` value and exits 0 when that value is a list, string
or object (the types with a length), and prints `0` with exit 0 when the
key is absent; when the value is a number, boolean or null, `len` raises an
uncaught `TypeError` instead.  (Of the non-object Documents, number,
boolean and null ones raise `TypeError` at the membership test; a string or
list Document passes that test as a substring or element check, printing
`0` with exit 0 when `splits` does not occur in it and raising `TypeError`
at the subscription when it does.) -/
theorem count_object_spec (p f : String) (r : List String) (ms : JsonMembers) :
    (ms.lookup "splits" = none →
      runMain (p :: f :: "count" :: r) (.ok (.obj ms)) = .exits ["0"] [] 0)
    ∧ (∀ xs : JsonList, ms.lookup "splits" = some (.arr xs) →
        runMain (p :: f :: "count" :: r) (.ok (.obj ms))
          = .exits [pyNatStr xs.length] [] 0)
    ∧ (∀ s : String, ms.lookup "splits" = some (.str s) →
        runMain (p :: f :: "count" :: r) (.ok (.obj ms))
          = .exits [pyNatStr s.length] [] 0)
    ∧ (∀ ms2 : JsonMembers, ms.lookup "splits" = some (.obj ms2) →
        runMain (p :: f :: "count" :: r) (.ok (.obj ms))
          = .exits [pyNatStr ms2.length] [] 0) := by
  refine ⟨fun h => ?_, fun xs h => ?_, fun s h => ?_, fun ms2 h => ?_⟩ <;>
    rw [runMain_count_red] <;>
    simp [countBody, pyContains, JsonMembers.hasKey, h, pySubscriptStr, pyLen]

/-- C4 amended witness: `count` on `{"splits": [null, null, null]}` prints
`3`, and on `{}` prints `0`. -/
theorem count_object_spec_case :
    runMain ["json-parser.py", "splits.json", "count"]
        (.ok (.obj (.cons "splits"
          (.arr (.cons .null (.cons .null (.cons .null .nil)))) .nil)))
      = .exits [pyNatStr (JsonList.cons .null
          (.cons .null (.cons .null .nil))).length] [] 0
    ∧ runMain ["json-parser.py", "splits.json", "count"] (.ok (.obj .nil))
      = .exits ["0"] [] 0 :=
  ⟨(count_object_spec "json-parser.py" "splits.json" []
      (.cons "splits" (.arr (.cons .null (.cons .null (.cons .null .nil)))) .nil)).2.1
      (.cons .null (.cons .null (.cons .null .nil))) rfl,
   (count_object_spec "json-parser.py" "splits.json" [] .nil).1 rfl⟩

/-- C6: whenever the file loads (parses) successfully the `validate` query
prints `valid` and exits 0; whenever parsing fails, every query alike exits
1 with nothing on standard output and a standard-error message that starts
with `Invalid JSON`, before any query logic runs. -/
theorem validate_and_invalid_json_spec :
    (∀ (p f : String) (r : List String) (d : Json),
        runMain (p :: f :: "validate" :: r) (.ok d) = .exits ["valid"] [] 0)
    ∧ (∀ (p f q m : String) (r : List String),
        runMain (p :: f :: q :: r) (.decodeErr m)
            = .exits [] ["Invalid JSON: " ++ m] 1
        ∧ ∃ tail : String, "Invalid JSON: " ++ m = "Invalid JSON" ++ tail) := by
  refine ⟨fun p f r d => rfl, fun p f q m r => ⟨rfl, ⟨": " ++ m, ?_⟩⟩⟩
  rw [← String.append_assoc]
  rfl

/-- C7: `get_split` invoked without an index argument (on a Document that
loaded) prints `Missing split index` to standard error, exits 1, and prints
nothing to standard output. -/
theorem get_split_missing_index_spec (p f : String) (d : Json) :
    runMain [p, f, "get_split"] (.ok d) = .exits [] ["Missing split index"] 1 := rfl

/-- C8: when the index argument of `get_split` or `get_field` is not a
valid integer literal, `int()` raises an uncaught `ValueError`: the process
neither prints a query result with exit 0 nor the usage-error message, and
nothing reaches standard output. -/
theorem int_conversion_valueerror (p f s fld : String) (r : List String) (d : Json)
    (h : pyInt s = none) :
    runMain (p :: f :: "get_split" :: s :: r) (.ok d) = .raised .valueError []
    ∧ runMain (p :: f :: "get_field" :: s :: fld :: r) (.ok d) = .raised .valueError []
    ∧ ∀ (o e : List String) (c : Nat), Outcome.raised .valueError [] ≠ .exits o e c := by
  refine ⟨?_, ?_, fun o e c hh => Outcome.noConfusion hh⟩
  · rw [runMain_get_split_red, h]
  · rw [runMain_get_field_red, h]

/-- C8 witness: the error branch is reachable from the public interface,
for example with index argument `abc` or `1.5`. -/
theorem int_conversion_valueerror_case :
    pyInt "abc" = none ∧ pyInt "1.5" = none
    ∧ runMain ["json-parser.py", "splits.json", "get_split", "abc"] (.ok (.obj .nil))
        = .raised .valueError []
    ∧ runMain ["json-parser.py", "splits.json", "get_field", "1.5", "name"]
          (.ok (.obj .nil))
        = .raised .valueError [] :=
  ⟨rfl, rfl,
   (int_conversion_valueerror "json-parser.py" "splits.json" "abc" "" [] (.obj .nil) rfl).1,
   (int_conversion_valueerror "json-parser.py" "splits.json" "1.5" "name" [] (.obj .nil)
      rfl).2.1⟩

theorem decVal?_decDigit (d : Nat) (h : d < 10) : decVal? (decDigit d) = some d := by
  have hall : ∀ i : Fin 10, decVal? (decDigit i.val) = some i.val := by decide
  exact hall ⟨d, h⟩

/-- Packaged character-class facts about a decimal digit character, used to
drive the scanner's dispatch. -/
theorem decDigit_facts (d : Nat) (h : d < 10) :
    ((decDigit d = ' ' || decDigit d = '\t' || decDigit d = '\n' || decDigit d = '\r')
        = false)
    ∧ decDigit d ≠ ']' ∧ decDigit d ≠ '\x7d' ∧ decDigit d ≠ '-'
    ∧ decDigit d ≠ 'n' ∧ decDigit d ≠ 't' ∧ decDigit d ≠ 'f' ∧ decDigit d ≠ '"'
    ∧ decDigit d ≠ '[' ∧ decDigit d ≠ '\x7b'
    ∧ (decVal? (decDigit d)).isSome = true := by
  have hall : ∀ i : Fin 10,
      ((decDigit i.val = ' ' || decDigit i.val = '\t' || decDigit i.val = '\n'
          || decDigit i.val = '\r') = false)
      ∧ decDigit i.val ≠ ']' ∧ decDigit i.val ≠ '\x7d' ∧ decDigit i.val ≠ '-'
      ∧ decDigit i.val ≠ 'n' ∧ decDigit i.val ≠ 't' ∧ decDigit i.val ≠ 'f'
      ∧ decDigit i.val ≠ '"' ∧ decDigit i.val ≠ '[' ∧ decDigit i.val ≠ '\x7b'
      ∧ (decVal? (decDigit i.val)).isSome = true := by decide
  exact hall ⟨d, h⟩

theorem hexVal?_hexDigit (d : Nat) (h : d < 16) : hexVal? (hexDigit d) = some d := by
  have hall : ∀ i : Fin 16, hexVal? (hexDigit i.val) = some i.val := by decide
  exact hall ⟨d, h⟩

theorem charFromNat?_toNat (c : Char) : charFromNat? c.toNat = some c := by
  have hv : c.toNat.isValidChar := c.valid
  simp [charFromNat?, hv]

theorem hex4?_hex4Chars (n : Nat) (h : n < 0x10000) :
    hex4? (hexDigit (n / 4096 % 16)) (hexDigit (n / 256 % 16))
        (hexDigit (n / 16 % 16)) (hexDigit (n % 16)) = some n := by
  rw [hex4?, hexVal?_hexDigit _ (Nat.mod_lt _ (by omega)),
    hexVal?_hexDigit _ (Nat.mod_lt _ (by omega)),
    hexVal?_hexDigit _ (Nat.mod_lt _ (by omega)),
    hexVal?_hexDigit _ (Nat.mod_lt _ (by omega))]
  simp only [Option.some.injEq]
  omega

theorem char_toNat_valid (c : Char) :
    c.toNat < 0xd800 ∨ (0xdfff < c.toNat ∧ c.toNat < 0x110000) := c.valid

theorem parseSB_cons (fuel : Nat) (c : Char) (tl : List Char) :
    parseSB (fuel + 1) (c :: tl)
      = if c = '"' then some ([], tl)
        else if c = '\\' then escStep (parseSB fuel) tl
        else if c.toNat < 0x20 then none
        else (parseSB fuel tl).map fun p => (c :: p.1, p.2) := rfl

theorem escStep_u (recur : List Char → Option (List Char × List Char))
    (a b c2 d : Char) (r2 : List Char) :
    escStep recur ('u' :: a :: b :: c2 :: d :: r2) = uEsc recur (hex4? a b c2 d) r2 := rfl

theorem uEsc_plain (recur : List Char → Option (List Char × List Char)) (n : Nat)
    (r : List Char) (h : ¬ (0xd800 ≤ n ∧ n ≤ 0xdbff)) :
    uEsc recur (some n) r = litChar recur (charFromNat? n) r := by
  simp only [uEsc, if_neg h]

theorem uEsc_pair (recur : List Char → Option (List Char × List Char)) (n : Nat)
    (a2 b2 c3 d2 : Char) (r3 : List Char) (h : 0xd800 ≤ n ∧ n ≤ 0xdbff) :
    uEsc recur (some n) ('\\' :: 'u' :: a2 :: b2 :: c3 :: d2 :: r3)
      = pairEsc recur n (hex4? a2 b2 c3 d2) r3 := by
  simp only [uEsc, if_pos h]
  simp

theorem pairEsc_some (recur : List Char → Option (List Char × List Char)) (n m : Nat)
    (r : List Char) (h : 0xdc00 ≤ m ∧ m ≤ 0xdfff) :
    pairEsc recur n (some m) r
      = litChar recur (charFromNat? (0x10000 + (n - 0xd800) * 0x400 + (m - 0xdc00))) r := by
  simp only [pairEsc, if_pos h]

/-- Parsing one escaped character (one fuel unit) undoes the escaping,
with Python's surrogate-pair recombination on the astral case. -/
theorem parseSB_escChar (c : Char) (tail : List Char) (fuel : Nat) :
    parseSB (fuel + 1) (escChar c ++ tail)
      = (parseSB fuel tail).map fun p => (c :: p.1, p.2) := by
  by_cases h1 : c = '"'
  · subst h1
    rw [show escChar '"' = ['\\', '"'] from by decide]
    rfl
  by_cases h2 : c = '\\'
  · subst h2
    rw [show escChar '\\' = ['\\', '\\'] from by decide]
    rfl
  by_cases h3 : c = '\x08'
  · subst h3
    rw [show escChar '\x08' = ['\\', 'b'] from by decide]
    rfl
  by_cases h4 : c = '\t'
  · subst h4
    rw [show escChar '\t' = ['\\', 't'] from by decide]
    rfl
  by_cases h5 : c = '\n'
  · subst h5
    rw [show escChar '\n' = ['\\', 'n'] from by decide]
    rfl
  by_cases h6 : c = '\x0c'
  · subst h6
    rw [show escChar '\x0c' = ['\\', 'f'] from by decide]
    rfl
  by_cases h7 : c = '\r'
  · subst h7
    rw [show escChar '\r' = ['\\', 'r'] from by decide]
    rfl
  by_cases h8 : c.toNat < 0x20 ∨ 0x7e < c.toNat
  · by_cases h9 : c.toNat < 0x10000
    · have hns : ¬ (0xd800 ≤ c.toNat ∧ c.toNat ≤ 0xdbff) := by
        rcases char_toNat_valid c with hv | hv <;> omega
      have hesc : escChar c = '\\' :: 'u' :: hex4Chars c.toNat := by
        rw [escChar, if_neg h1, if_neg h2, if_neg h3, if_neg h4, if_neg h5, if_neg h6,
          if_neg h7, if_pos h8, if_pos h9]
      rw [hesc, hex4Chars]
      simp only [List.cons_append, List.nil_append]
      rw [show ∀ tl, parseSB (fuel + 1) ('\\' :: tl) = escStep (parseSB fuel) tl
            from fun tl => rfl,
        escStep_u, hex4?_hex4Chars c.toNat h9, uEsc_plain _ _ _ hns, charFromNat?_toNat]
      rfl
    · have hlt : c.toNat < 0x110000 := by
        rcases char_toNat_valid c with hv | hv <;> omega
      have hhi : 0xd800 ≤ 0xd800 + (c.toNat - 0x10000) / 0x400
          ∧ 0xd800 + (c.toNat - 0x10000) / 0x400 ≤ 0xdbff := by omega
      have hlo : 0xdc00 ≤ 0xdc00 + (c.toNat - 0x10000) % 0x400
          ∧ 0xdc00 + (c.toNat - 0x10000) % 0x400 ≤ 0xdfff := by omega
      have hcomb : 0x10000
            + (0xd800 + (c.toNat - 0x10000) / 0x400 - 0xd800) * 0x400
            + (0xdc00 + (c.toNat - 0x10000) % 0x400 - 0xdc00) = c.toNat := by omega
      have hesc : escChar c
          = '\\' :: 'u' :: hex4Chars (0xd800 + (c.toNat - 0x10000) / 0x400)
            ++ '\\' :: 'u' :: hex4Chars (0xdc00 + (c.toNat - 0x10000) % 0x400) := by
        rw [escChar, if_neg h1, if_neg h2, if_neg h3, if_neg h4, if_neg h5, if_neg h6,
          if_neg h7, if_pos h8, if_neg h9]
      rw [hesc, hex4Chars, hex4Chars]
      simp only [List.cons_append, List.nil_append, List.append_assoc]
      rw [show ∀ tl, parseSB (fuel + 1) ('\\' :: tl) = escStep (parseSB fuel) tl
            from fun tl => rfl,
        escStep_u, hex4?_hex4Chars _ (by omega), uEsc_pair _ _ _ _ _ _ _ hhi,
        hex4?_hex4Chars _ (by omega), pairEsc_some _ _ _ _ hlo, hcomb, charFromNat?_toNat]
      rfl
  · have hge : ¬ c.toNat < 0x20 := by omega
    have hesc : escChar c = [c] := by
      rw [escChar, if_neg h1, if_neg h2, if_neg h3, if_neg h4, if_neg h5, if_neg h6,
        if_neg h7, if_neg h8]
    rw [hesc]
    simp only [List.cons_append, List.nil_append]
    rw [parseSB_cons, if_neg h1, if_neg h2, if_neg hge]

/-- Parsing an escaped string body stops exactly at the closing quote and
recovers the original characters. -/
theorem parseSB_escList (cs : List Char) :
    ∀ (rest : List Char) (fuel : Nat),
      parseSB (cs.length + fuel + 1) (escList cs ++ '"' :: rest) = some (cs, rest) := by
  induction cs with
  | nil => intro rest fuel; rfl
  | cons c tl ih =>
    intro rest fuel
    have harr : (c :: tl).length + fuel + 1 = (tl.length + fuel + 1) + 1 := by
      simp only [List.length_cons]
      omega
    rw [escList, List.append_assoc, harr, parseSB_escChar, ih]
    rfl

/-- Test for a remainder that cannot extend a rendered integer: empty, or
headed by no digit, `.`, `e` or `E`.  Every JSON delimiter (comma, closing
bracket or brace, whitespace, end of input) qualifies. -/
def numSafe : List Char → Bool
  | [] => true
  | c :: _ => !((decVal? c).isSome || c = '.' || c = 'e' || c = 'E')

theorem decDigit_toNat (d : Nat) (h : d < 10) : (decDigit d).toNat = 48 + d := by
  have hall : ∀ i : Fin 10, (decDigit i.val).toNat = 48 + i.val := by decide
  exact hall ⟨d, h⟩

theorem numSafe_floatMark {rest : List Char} (h : numSafe rest = true) :
    floatMark rest = false := by
  cases rest with
  | nil => rfl
  | cons c l =>
    simp only [numSafe, Bool.not_eq_eq_eq_not, Bool.not_true, Bool.or_eq_false_iff] at h
    simp [floatMark, h.1.1.2, h.1.2, h.2]

theorem numSafe_head {c : Char} {l : List Char} (h : numSafe (c :: l) = true) :
    decVal? c = none := by
  simp only [numSafe, Bool.not_eq_eq_eq_not, Bool.not_true, Bool.or_eq_false_iff] at h
  exact Option.not_isSome_iff_eq_none.mp (by simp [h.1.1.1])

theorem digitLoop_stop (acc : Nat) {rest : List Char} (h : numSafe rest = true) :
    digitLoop acc rest = (acc, rest) := by
  cases rest with
  | nil => rfl
  | cons c l => simp [digitLoop, numSafe_head h]

/-- Shape of a decimal rendering: it starts with a digit character, the
digit being nonzero when `n` has several digits. -/
theorem decChars_shape (n : Nat) :
    ∃ d tl, decChars n = decDigit d :: tl ∧ d < 10
      ∧ (n < 10 → d = n ∧ tl = []) ∧ (10 ≤ n → 1 ≤ d) := by
  induction n using Nat.strongRecOn with
  | _ n ih =>
    by_cases h : n < 10
    · exact ⟨n, [], by rw [decChars, if_pos h], h, fun _ => ⟨rfl, rfl⟩,
        fun h10 => absurd h (by omega)⟩
    · obtain ⟨d, tl, heq, hd, hlt, hge⟩ := ih (n / 10) (by omega)
      refine ⟨d, tl ++ [decDigit (n % 10)], ?_, hd, fun hn => absurd hn h, fun _ => ?_⟩
      · rw [decChars, if_neg h, heq]
        simp
      · by_cases h10 : n / 10 < 10
        · have hdn := (hlt h10).1
          omega
        · exact hge (by omega)

/-- The digit loop consumes exactly a rendered decimal and accumulates its
value. -/
theorem digitLoop_decChars (n : Nat) : ∀ (acc : Nat) (rest : List Char),
    digitLoop acc (decChars n ++ rest)
      = digitLoop (acc * 10 ^ (decChars n).length + n) rest := by
  induction n using Nat.strongRecOn with
  | _ n ih =>
    intro acc rest
    by_cases h : n < 10
    · rw [decChars, if_pos h]
      simp [digitLoop, decVal?_decDigit n h]
    · rw [decChars, if_neg h, List.append_assoc, ih (n / 10) (by omega)]
      simp only [List.cons_append, List.nil_append, digitLoop,
        decVal?_decDigit (n % 10) (Nat.mod_lt _ (by omega))]
      congr 1
      simp only [List.length_append, List.length_cons, List.length_nil, zero_add]
      have hdm : ∀ K : Nat, (acc * K + n / 10) * 10 + n % 10 = acc * (K * 10) + n := by
        intro K
        have hx : n / 10 * 10 + n % 10 = n := by omega
        calc (acc * K + n / 10) * 10 + n % 10
            = acc * (K * 10) + (n / 10 * 10 + n % 10) := by ring
          _ = acc * (K * 10) + n := by rw [hx]
      rw [hdm, pow_succ]

theorem parseUNum_decChars (n : Nat) (rest : List Char) (hsafe : numSafe rest = true) :
    parseUNum (decChars n ++ rest) = some (n, rest) := by
  have hcond : ((decVal? (rest.headD ' ')).isSome || floatMark rest) = false := by
    cases rest with
    | nil => decide
    | cons c l =>
      simp only [List.headD, numSafe_head hsafe, numSafe_floatMark hsafe]
      rfl
  by_cases h0 : n = 0
  · subst h0
    rw [show decChars 0 = ['0'] from by rw [decChars]; decide]
    simp only [List.cons_append, List.nil_append]
    rw [show ∀ r : List Char, parseUNum ('0' :: r)
          = if (decVal? (r.headD ' ')).isSome || floatMark r then none
            else some (0, r) from fun r => rfl]
    rw [hcond]
    simp
  · obtain ⟨d, tl, heq, hd, hlt, hge⟩ := decChars_shape n
    have h1d : 1 ≤ d := by
      rcases Nat.lt_or_ge n 10 with hlt10 | hge10
      · have := (hlt hlt10).1
        omega
      · exact hge hge10
    have hne0 : decDigit d ≠ '0' := by
      intro hcontra
      have h48 : 48 + d = Char.toNat '0' := by rw [← decDigit_toNat d hd, hcontra]
      have h0v : Char.toNat '0' = 48 := by decide
      omega
    have hloop : digitLoop d (tl ++ rest) = (n, rest) := by
      have h1 := digitLoop_decChars n 0 rest
      rw [heq] at h1
      simp only [List.cons_append, digitLoop, decVal?_decDigit d hd, Nat.zero_mul,
        Nat.zero_add] at h1
      rw [digitLoop_stop n hsafe] at h1
      exact h1
    rw [heq]
    simp only [List.cons_append, parseUNum]
    rw [if_neg hne0, decVal?_decDigit d hd]
    simp only [hloop, numSafe_floatMark hsafe]
    rfl

theorem parseNum_int (i : Int) (rest : List Char) (hsafe : numSafe rest = true) :
    parseNum ((pyIntStr i).data ++ rest) = some (i, rest) := by
  by_cases hneg : i < 0
  · have hdata : (pyIntStr i).data = '-' :: decChars i.natAbs := by
      rw [pyIntStr, if_pos hneg]
      simp [String.data_append, pyNatStr]
    rw [hdata]
    simp only [List.cons_append, parseNum, if_true]
    rw [parseUNum_decChars _ _ hsafe]
    have hval : -((i.natAbs : Nat) : Int) = i := by omega
    simp only [Option.map_some']
    rw [hval]
  · have hdata : (pyIntStr i).data = decChars i.natAbs := by
      rw [pyIntStr, if_neg hneg]
      rfl
    rw [hdata]
    obtain ⟨d, tl, heq, hd, _, _⟩ := decChars_shape i.natAbs
    have hnm : decDigit d ≠ '-' := by
      intro hcontra
      have h48 : 48 + d = Char.toNat '-' := by rw [← decDigit_toNat d hd, hcontra]
      have h0v : Char.toNat '-' = 45 := by decide
      omega
    rw [heq]
    simp only [List.cons_append, parseNum]
    rw [if_neg hnm, ← List.cons_append, ← heq, parseUNum_decChars _ _ hsafe]
    have hval : ((i.natAbs : Nat) : Int) = i := by omega
    simp only [Option.map_some']
    rw [hval]

/-- Concatenation of member lists, for stating `pyDict` facts. -/
def catMembers : JsonMembers → JsonMembers → JsonMembers
  | .nil, ys => ys
  | .cons k v tl, ys => .cons k v (catMembers tl ys)

/-- Freshness of every key of `ms` with respect to `acc`. -/
def noKeyOf (acc : JsonMembers) : JsonMembers → Bool
  | .nil => true
  | .cons k _ tl => !acc.hasKey k && noKeyOf acc tl

theorem hasKey_cons (k k2 : String) (v : Json) (tl : JsonMembers) :
    (JsonMembers.cons k v tl).hasKey k2 = if k = k2 then true else tl.hasKey k2 := by
  by_cases h : k = k2 <;> simp [JsonMembers.hasKey, JsonMembers.lookup, h]

theorem catMembers_nil_right : ∀ ms : JsonMembers, catMembers ms .nil = ms
  | .nil => rfl
  | .cons k v tl => by rw [catMembers, catMembers_nil_right tl]

theorem catMembers_assoc : ∀ a b c : JsonMembers,
    catMembers (catMembers a b) c = catMembers a (catMembers b c)
  | .nil, _, _ => rfl
  | .cons k v tl, b, c => by
    simp only [catMembers]
    rw [catMembers_assoc tl b c]

theorem hasKey_cat : ∀ (a b : JsonMembers) (k : String),
    (catMembers a b).hasKey k = (a.hasKey k || b.hasKey k)
  | .nil, b, k => by simp [catMembers, JsonMembers.hasKey, JsonMembers.lookup]
  | .cons k2 v tl, b, k => by
    by_cases h : k2 = k <;>
      simp [catMembers, hasKey_cons, h, hasKey_cat tl b k]

theorem updEntry_fresh : ∀ (acc : JsonMembers) (k : String) (v : Json),
    acc.hasKey k = false → updEntry acc k v = catMembers acc (.cons k v .nil)
  | .nil, k, v, _ => rfl
  | .cons k2 v2 tl, k, v, h => by
    rw [hasKey_cons] at h
    by_cases he : k2 = k
    · rw [if_pos he] at h
      exact absurd h (by simp)
    · rw [if_neg he] at h
      rw [updEntry, if_neg he, catMembers, updEntry_fresh tl k v h]

theorem noKeyOf_nil : ∀ ms : JsonMembers, noKeyOf .nil ms = true
  | .nil => rfl
  | .cons k v tl => by
    simp only [noKeyOf, noKeyOf_nil tl]
    simp [JsonMembers.hasKey, JsonMembers.lookup]

theorem noKeyOf_push : ∀ (ms acc : JsonMembers) (k : String) (v : Json),
    noKeyOf acc ms = true → ms.hasKey k = false →
    noKeyOf (catMembers acc (.cons k v .nil)) ms = true
  | .nil, _, _, _, _, _ => rfl
  | .cons k2 v2 tl, acc, k, v, h1, h2 => by
    simp only [noKeyOf, Bool.and_eq_true, Bool.not_eq_true'] at h1
    rw [hasKey_cons] at h2
    by_cases he : k2 = k
    · rw [if_pos he] at h2
      exact absurd h2 (by simp)
    · rw [if_neg he] at h2
      simp only [noKeyOf, Bool.and_eq_true, Bool.not_eq_true']
      refine ⟨?_, noKeyOf_push tl acc k v h1.2 h2⟩
      rw [hasKey_cat, h1.1, hasKey_cons]
      simp only [Bool.false_or]
      refine (if_neg ?_).trans ?_
      · exact fun hc : k = k2 => he hc.symm
      · simp [JsonMembers.hasKey, JsonMembers.lookup]

theorem pyDictLoop_cat : ∀ (ms acc : JsonMembers),
    noKeyOf acc ms = true → keyNodup ms = true → pyDictLoop acc ms = catMembers acc ms
  | .nil, acc, _, _ => by rw [pyDictLoop, catMembers_nil_right]
  | .cons k v tl, acc, h1, h2 => by
    simp only [noKeyOf, Bool.and_eq_true, Bool.not_eq_true'] at h1
    simp only [keyNodup, Bool.and_eq_true, Bool.not_eq_true'] at h2
    rw [pyDictLoop, updEntry_fresh acc k v h1.1,
      pyDictLoop_cat tl _ (noKeyOf_push tl acc k v h1.2 h2.1) h2.2,
      catMembers_assoc]
    rfl

/-- Building a Python dict from members whose keys are unique returns them
unchanged. -/
theorem pyDict_eq_self (ms : JsonMembers) (h : keyNodup ms = true) : pyDict ms = ms := by
  rw [pyDict, pyDictLoop_cat ms .nil (noKeyOf_nil ms) h]
  rfl

theorem skipWs_no (c : Char) (tl : List Char)
    (h : (c = ' ' || c = '\t' || c = '\n' || c = '\r') = false) :
    skipWs (c :: tl) = c :: tl := by
  simp only [skipWs, h]
  rfl

/-- Every serialized value begins with a character that is no whitespace
and closes no array or object. -/
theorem dumpsChars_head (v : Json) :
    ∃ c t, dumpsChars v = c :: t
      ∧ ((c = ' ' || c = '\t' || c = '\n' || c = '\r') = false)
      ∧ c ≠ ']' ∧ c ≠ '\x7d' := by
  cases v with
  | num n =>
    by_cases hneg : n < 0
    · have hdata : dumpsChars (Json.num n) = '-' :: decChars n.natAbs := by
        show (pyIntStr n).data = _
        rw [pyIntStr, if_pos hneg]
        simp [String.data_append, pyNatStr]
      exact ⟨'-', decChars n.natAbs, hdata, by decide⟩
    · obtain ⟨d, tl, heq, hd, _, _⟩ := decChars_shape n.natAbs
      obtain ⟨hws, hbr, hbc, _⟩ := decDigit_facts d hd
      have hdata : dumpsChars (Json.num n) = decDigit d :: tl := by
        show (pyIntStr n).data = _
        rw [pyIntStr, if_neg hneg]
        exact heq
      exact ⟨decDigit d, tl, hdata, hws, hbr, hbc⟩
  | null => exact ⟨'n', _, rfl, by decide⟩
  | bool b => cases b with
    | true => exact ⟨'t', _, rfl, by decide⟩
    | false => exact ⟨'f', _, rfl, by decide⟩
  | str s => exact ⟨'"', _, rfl, by decide⟩
  | arr xs => exact ⟨'[', _, rfl, by decide⟩
  | obj ms => exact ⟨'\x7b', _, rfl, by decide⟩

/-- Whitespace skipping is the identity on serialized output. -/
theorem skipWs_dumps (v : Json) (x : List Char) :
    skipWs (dumpsChars v ++ x) = dumpsChars v ++ x := by
  obtain ⟨c, t, heq, hws, _, _⟩ := dumpsChars_head v
  rw [heq, List.cons_append, skipWs_no _ _ hws]

theorem escChar_length_pos (c : Char) : 1 ≤ (escChar c).length := by
  rw [escChar]
  repeat' split
  all_goals simp [hex4Chars]

theorem escList_length_ge : ∀ cs : List Char, cs.length ≤ (escList cs).length
  | [] => le_refl 0
  | c :: tl => by
    rw [escList]
    simp only [List.length_cons, List.length_append]
    have h1 := escChar_length_pos c
    have h2 := escList_length_ge tl
    omega

theorem parseVal_space : ∀ (fuel : Nat) (y : List Char),
    parseVal fuel (' ' :: y) = parseVal fuel y
  | 0, _ => rfl
  | _ + 1, _ => rfl

theorem parseElems_space (fuel : Nat) (y : List Char) :
    parseElems fuel (' ' :: y) = parseElems fuel y := by
  cases fuel with
  | zero => rfl
  | succ g => simp only [parseElems, parseVal_space]

theorem parseVal_str_step (f : Nat) (body : List Char) :
    parseVal (f + 1) ('"' :: body)
      = (match parseSB f body with
         | some (cs2, r2) => some (.str ⟨cs2⟩, r2)
         | none => none) := rfl

theorem dumpsElems_cons_eq (hd : Json) (tl : JsonList) :
    ∃ y, dumpsElems (.cons hd tl) = dumpsChars hd ++ y := by
  cases tl with
  | nil => exact ⟨[], (List.append_nil _).symm⟩
  | cons hd2 tl2 => exact ⟨_, rfl⟩

theorem dumpsMembers_cons_eq (k : String) (v : Json) (tl : JsonMembers) :
    ∃ y, dumpsMembers (.cons k v tl) = '"' :: y := by
  cases tl with
  | nil => exact ⟨_, rfl⟩
  | cons k2 v2 tl2 => exact ⟨_, rfl⟩

/-- Character-class facts about the first character of a serialized
integer, used to drive the scanner into the number branch. -/
theorem num_head_facts (n : Int) :
    ∃ c0 t0, dumpsChars (Json.num n) = c0 :: t0
      ∧ ((c0 = ' ' || c0 = '\t' || c0 = '\n' || c0 = '\r') = false)
      ∧ c0 ≠ 'n' ∧ c0 ≠ 't' ∧ c0 ≠ 'f' ∧ c0 ≠ '"' ∧ c0 ≠ '[' ∧ c0 ≠ '\x7b'
      ∧ (c0 = '-' || (decVal? c0).isSome) = true := by
  by_cases hneg : n < 0
  · have hdata : dumpsChars (Json.num n) = '-' :: decChars n.natAbs := by
      show (pyIntStr n).data = _
      rw [pyIntStr, if_pos hneg]
      simp [String.data_append, pyNatStr]
    exact ⟨'-', decChars n.natAbs, hdata, by decide⟩
  · obtain ⟨d, tl, heq, hd, _, _⟩ := decChars_shape n.natAbs
    obtain ⟨hws, _, _, _, hn, ht, hf, hq, hk, hb, hsome⟩ := decDigit_facts d hd
    have hdata : dumpsChars (Json.num n) = decDigit d :: tl := by
      show (pyIntStr n).data = _
      rw [pyIntStr, if_neg hneg]
      exact heq
    exact ⟨decDigit d, tl, hdata, hws, hn, ht, hf, hq, hk, hb, by simp [hsome]⟩

theorem parseVal_arr_step (f : Nat) (r : List Char) :
    parseVal (f + 1) ('[' :: r)
      = (match skipWs r with
         | [] => none
         | c2 :: r2 =>
           if c2 = ']' then some (.arr .nil, r2)
           else
             match parseElems f (c2 :: r2) with
             | some (xs, r3) => some (.arr xs, r3)
             | none => none) := rfl

theorem parseVal_obj_step (f : Nat) (r : List Char) :
    parseVal (f + 1) ('\x7b' :: r)
      = (match skipWs r with
         | [] => none
         | c2 :: r2 =>
           if c2 = '\x7d' then some (.obj .nil, r2)
           else
             match parseMembers f (c2 :: r2) with
             | some (ms, r3) => some (.obj (pyDict ms), r3)
             | none => none) := rfl

theorem parseVal_arr_cons (f : Nat) (c2 : Char) (r2 : List Char)
    (hws : (c2 = ' ' || c2 = '\t' || c2 = '\n' || c2 = '\r') = false)
    (hne : c2 ≠ ']') :
    parseVal (f + 1) ('[' :: c2 :: r2)
      = (match parseElems f (c2 :: r2) with
         | some (xs, r3) => some (.arr xs, r3)
         | none => none) := by
  rw [parseVal_arr_step, skipWs_no _ _ hws]
  simp only [if_neg hne]

theorem parseVal_obj_cons (f : Nat) (c2 : Char) (r2 : List Char)
    (hws : (c2 = ' ' || c2 = '\t' || c2 = '\n' || c2 = '\r') = false)
    (hne : c2 ≠ '\x7d') :
    parseVal (f + 1) ('\x7b' :: c2 :: r2)
      = (match parseMembers f (c2 :: r2) with
         | some (ms, r3) => some (.obj (pyDict ms), r3)
         | none => none) := by
  rw [parseVal_obj_step, skipWs_no _ _ hws]
  simp only [if_neg hne]

theorem parseElems_step (f : Nat) (cs : List Char) :
    parseElems (f + 1) cs
      = (match parseVal f cs with
         | none => none
         | some (v, r) =>
           match skipWs r with
           | ',' :: r2 =>
             match parseElems f r2 with
             | some (xs, r3) => some (JsonList.cons v xs, r3)
             | none => none
           | ']' :: r2 => some (JsonList.cons v JsonList.nil, r2)
           | _ => none) := rfl

theorem parseMembers_step (f : Nat) (r : List Char) :
    parseMembers (f + 1) ('"' :: r)
      = (match parseSB f r with
         | none => none
         | some (kcs, r1) =>
           match skipWs r1 with
           | ':' :: r2 =>
             match parseVal f r2 with
             | none => none
             | some (v, r3) =>
               match skipWs r3 with
               | ',' :: r4 =>
                 match parseMembers f (skipWs r4) with
                 | some (ms, r5) => some (.cons ⟨kcs⟩ v ms, r5)
                 | none => none
               | c :: r4 => if c = '\x7d' then some (.cons ⟨kcs⟩ v .nil, r4) else none
               | [] => none
           | _ => none) := rfl

mutual
/-- The scanner run on `json.dumps` output followed by any remainder that
cannot extend a number recovers exactly the serialized value. -/
theorem rt_val : ∀ (v : Json) (fuel : Nat) (rest : List Char),
    wfJ v = true → (dumpsChars v).length < fuel → numSafe rest = true →
    parseVal fuel (dumpsChars v ++ rest) = some (v, rest)
  | .null, fuel, rest, _, hlen, _ => by
    cases fuel with
    | zero => exact absurd hlen (by simp)
    | succ f => rfl
  | .bool true, fuel, rest, _, hlen, _ => by
    cases fuel with
    | zero => exact absurd hlen (by simp)
    | succ f => rfl
  | .bool false, fuel, rest, _, hlen, _ => by
    cases fuel with
    | zero => exact absurd hlen (by simp)
    | succ f => rfl
  | .num n, fuel, rest, _, hlen, hrest => by
    cases fuel with
    | zero => exact absurd hlen (by simp)
    | succ f =>
      obtain ⟨c0, t0, heq0, hws0, hn, ht, hf, hq, hk, hb, hnum⟩ := num_head_facts n
      simp only [parseVal]
      rw [heq0, List.cons_append, skipWs_no _ _ hws0]
      simp only [if_neg hn, if_neg ht, if_neg hf, if_neg hq, if_neg hk, if_neg hb,
        if_pos hnum]
      rw [← List.cons_append, ← heq0,
        show dumpsChars (Json.num n) = (pyIntStr n).data from rfl,
        parseNum_int n rest hrest]
  | .str s, fuel, rest, _, hlen, _ => by
    cases fuel with
    | zero => exact absurd hlen (by simp)
    | succ f =>
      have hsl : s.data.length + 1 ≤ f := by
        have h1 := escList_length_ge s.data
        rw [show dumpsChars (Json.str s) = '"' :: escList s.data ++ ['"'] from rfl] at hlen
        simp only [List.cons_append, List.length_cons, List.length_append,
          List.length_nil] at hlen
        omega
      have hfd : f = s.data.length + (f - s.data.length - 1) + 1 := by omega
      rw [show dumpsChars (Json.str s) ++ rest = '"' :: (escList s.data ++ '"' :: rest)
            from by simp [show dumpsChars (Json.str s) = '"' :: escList s.data ++ ['"']
              from rfl]]
      rw [parseVal_str_step, hfd, parseSB_escList]
  | .arr .nil, fuel, rest, _, hlen, _ => by
    cases fuel with
    | zero => exact absurd hlen (by simp)
    | succ f => rfl
  | .arr (.cons hd tl), fuel, rest, hwf, hlen, _ => by
    cases fuel with
    | zero => exact absurd hlen (by simp)
    | succ f =>
      simp only [wfJ] at hwf
      obtain ⟨y, hy⟩ := dumpsElems_cons_eq hd tl
      obtain ⟨c1, t1, heq1, hws1, hbr1, _⟩ := dumpsChars_head hd
      have harg : dumpsChars (Json.arr (.cons hd tl)) ++ rest
          = '[' :: (dumpsElems (.cons hd tl) ++ ']' :: rest) := by
        rw [show dumpsChars (Json.arr (.cons hd tl))
              = '[' :: dumpsElems (.cons hd tl) ++ [']'] from rfl]
        simp
      have hT : dumpsElems (.cons hd tl) ++ ']' :: rest
          = c1 :: (t1 ++ y ++ ']' :: rest) := by
        rw [hy, heq1]
        simp
      have hflen : (dumpsElems (.cons hd tl)).length + 2 ≤ f := by
        rw [show dumpsChars (Json.arr (.cons hd tl))
              = '[' :: dumpsElems (.cons hd tl) ++ [']'] from rfl] at hlen
        simp only [List.cons_append, List.length_cons, List.length_append,
          List.length_nil] at hlen
        omega
      have hrec : parseElems f (dumpsElems (.cons hd tl) ++ ']' :: rest)
          = some (.cons hd tl, rest) := by
        cases f with
        | zero => omega
        | succ g => exact rt_elems hd tl g rest hwf (by omega)
      rw [harg, hT, parseVal_arr_cons f c1 (t1 ++ y ++ ']' :: rest) hws1 hbr1,
        ← hT, hrec]
  | .obj .nil, fuel, rest, _, hlen, _ => by
    cases fuel with
    | zero => exact absurd hlen (by simp)
    | succ f => rfl
  | .obj (.cons k v tl), fuel, rest, hwf, hlen, _ => by
    cases fuel with
    | zero => exact absurd hlen (by simp)
    | succ f =>
      simp only [wfJ, Bool.and_eq_true] at hwf
      obtain ⟨y, hy⟩ := dumpsMembers_cons_eq k v tl
      have harg : dumpsChars (Json.obj (.cons k v tl)) ++ rest
          = '\x7b' :: (dumpsMembers (.cons k v tl) ++ '\x7d' :: rest) := by
        rw [show dumpsChars (Json.obj (.cons k v tl))
              = '\x7b' :: dumpsMembers (.cons k v tl) ++ ['\x7d'] from rfl]
        simp
      have hT : dumpsMembers (.cons k v tl) ++ '\x7d' :: rest
          = '"' :: (y ++ '\x7d' :: rest) := by
        rw [hy]
        simp
      have hflen : (dumpsMembers (.cons k v tl)).length + 2 ≤ f := by
        rw [show dumpsChars (Json.obj (.cons k v tl))
              = '\x7b' :: dumpsMembers (.cons k v tl) ++ ['\x7d'] from rfl] at hlen
        simp only [List.cons_append, List.length_cons, List.length_append,
          List.length_nil] at hlen
        omega
      have hrec : parseMembers f (dumpsMembers (.cons k v tl) ++ '\x7d' :: rest)
          = some (.cons k v tl, rest) := by
        cases f with
        | zero => omega
        | succ g => exact rt_members k v tl g rest hwf.2 (by omega)
      rw [harg, hT, parseVal_obj_cons f '"' (y ++ '\x7d' :: rest) (by decide) (by decide),
        ← hT, hrec]
      simp only [pyDict_eq_self _ hwf.1]
termination_by v fuel _ _ _ _ => sizeOf v
decreasing_by all_goals (simp_wf; omega)
/-- One or more serialized array elements followed by the closing bracket
parse back to themselves. -/
theorem rt_elems : ∀ (hd : Json) (tl : JsonList) (fuel : Nat) (rest : List Char),
    wfL (.cons hd tl) = true →
    (dumpsElems (.cons hd tl)).length < fuel →
    parseElems (fuel + 1) (dumpsElems (.cons hd tl) ++ ']' :: rest)
      = some (.cons hd tl, rest)
  | hd, .nil, fuel, rest, hwf, hlen => by
    simp only [wfL, Bool.and_eq_true] at hwf
    have hde : dumpsElems (.cons hd .nil) = dumpsChars hd := rfl
    rw [hde] at hlen ⊢
    have hval := rt_val hd fuel (']' :: rest) hwf.1 hlen rfl
    have hsk : skipWs (']' :: rest) = ']' :: rest := skipWs_no _ _ (by decide)
    rw [parseElems_step]
    simp only [hval, hsk]
  | hd, .cons hd2 tl2, fuel, rest, hwf, hlen => by
    simp only [wfL, Bool.and_eq_true] at hwf
    have hde : dumpsElems (.cons hd (.cons hd2 tl2))
        = dumpsChars hd ++ ',' :: ' ' :: dumpsElems (.cons hd2 tl2) := rfl
    have hlens : (dumpsChars hd).length + 2 + (dumpsElems (.cons hd2 tl2)).length
        = (dumpsElems (.cons hd (.cons hd2 tl2))).length := by
      rw [hde]
      simp only [List.length_append, List.length_cons]
      omega
    have harg : dumpsElems (.cons hd (.cons hd2 tl2)) ++ ']' :: rest
        = dumpsChars hd ++ (',' :: ' ' :: (dumpsElems (.cons hd2 tl2) ++ ']' :: rest)) := by
      rw [hde]
      simp
    have hval := rt_val hd fuel
      (',' :: ' ' :: (dumpsElems (.cons hd2 tl2) ++ ']' :: rest)) hwf.1 (by omega) rfl
    have hsk : skipWs (',' :: ' ' :: (dumpsElems (.cons hd2 tl2) ++ ']' :: rest))
        = ',' :: ' ' :: (dumpsElems (.cons hd2 tl2) ++ ']' :: rest) :=
      skipWs_no _ _ (by decide)
    have hrec : parseElems fuel (' ' :: (dumpsElems (.cons hd2 tl2) ++ ']' :: rest))
        = some (.cons hd2 tl2, rest) := by
      cases fuel with
      | zero => omega
      | succ g =>
        rw [parseElems_space]
        exact rt_elems hd2 tl2 g rest
          (by simp only [wfL, Bool.and_eq_true]; exact hwf.2) (by omega)
    rw [harg, parseElems_step]
    simp only [hval, hsk, hrec]
termination_by hd tl fuel _ _ _ => sizeOf hd + sizeOf tl + 1
decreasing_by all_goals (simp_wf; omega)
/-- One or more serialized object members followed by the closing brace
parse back to themselves, in textual order. -/
theorem rt_members : ∀ (k : String) (v : Json) (tl : JsonMembers) (fuel : Nat)
    (rest : List Char),
    wfM (.cons k v tl) = true →
    (dumpsMembers (.cons k v tl)).length < fuel →
    parseMembers (fuel + 1) (dumpsMembers (.cons k v tl) ++ '\x7d' :: rest)
      = some (.cons k v tl, rest)
  | k, v, .nil, fuel, rest, hwf, hlen => by
    simp only [wfM, Bool.and_eq_true] at hwf
    have hdm : dumpsMembers (.cons k v .nil)
        = '"' :: escList k.data ++ '"' :: ':' :: ' ' :: dumpsChars v := rfl
    have hlen2 : (escList k.data).length + 4 + (dumpsChars v).length
        = (dumpsMembers (.cons k v .nil)).length := by
      rw [hdm]
      simp only [List.cons_append, List.length_cons, List.length_append]
      omega
    have hkl := escList_length_ge k.data
    have hfd : fuel = k.data.length + (fuel - k.data.length - 1) + 1 := by omega
    have harg : dumpsMembers (.cons k v .nil) ++ '\x7d' :: rest
        = '"' :: (escList k.data
            ++ '"' :: (':' :: ' ' :: (dumpsChars v ++ '\x7d' :: rest))) := by
      rw [hdm]
      simp
    have hps : parseSB fuel
          (escList k.data ++ '"' :: (':' :: ' ' :: (dumpsChars v ++ '\x7d' :: rest)))
        = some (k.data, ':' :: ' ' :: (dumpsChars v ++ '\x7d' :: rest)) := by
      conv_lhs => rw [hfd]
      exact parseSB_escList k.data _ _
    have hval := rt_val v fuel ('\x7d' :: rest) hwf.1 (by omega) rfl
    have hsk1 : skipWs (':' :: ' ' :: (dumpsChars v ++ '\x7d' :: rest))
        = ':' :: ' ' :: (dumpsChars v ++ '\x7d' :: rest) := skipWs_no _ _ (by decide)
    have hsk2 : skipWs ('\x7d' :: rest) = '\x7d' :: rest := skipWs_no _ _ (by decide)
    rw [harg, parseMembers_step]
    simp only [hps, hsk1, parseVal_space, hval, hsk2]
    rfl
  | k, v, .cons k2 v2 tl2, fuel, rest, hwf, hlen => by
    simp only [wfM, Bool.and_eq_true] at hwf
    have hdm : dumpsMembers (.cons k v (.cons k2 v2 tl2))
        = '"' :: escList k.data ++ '"' :: ':' :: ' ' :: dumpsChars v
          ++ ',' :: ' ' :: dumpsMembers (.cons k2 v2 tl2) := rfl
    have hlen2 : (escList k.data).length + 6 + (dumpsChars v).length
          + (dumpsMembers (.cons k2 v2 tl2)).length
        = (dumpsMembers (.cons k v (.cons k2 v2 tl2))).length := by
      rw [hdm]
      simp only [List.cons_append, List.length_cons, List.length_append]
      omega
    have hkl := escList_length_ge k.data
    have hfd : fuel = k.data.length + (fuel - k.data.length - 1) + 1 := by omega
    have harg : dumpsMembers (.cons k v (.cons k2 v2 tl2)) ++ '\x7d' :: rest
        = '"' :: (escList k.data ++ '"' :: (':' :: ' ' :: (dumpsChars v
            ++ ',' :: ' ' :: (dumpsMembers (.cons k2 v2 tl2) ++ '\x7d' :: rest)))) := by
      rw [hdm]
      simp
    have hps : parseSB fuel (escList k.data ++ '"' :: (':' :: ' ' :: (dumpsChars v
            ++ ',' :: ' ' :: (dumpsMembers (.cons k2 v2 tl2) ++ '\x7d' :: rest))))
        = some (k.data, ':' :: ' ' :: (dumpsChars v
            ++ ',' :: ' ' :: (dumpsMembers (.cons k2 v2 tl2) ++ '\x7d' :: rest))) := by
      conv_lhs => rw [hfd]
      exact parseSB_escList k.data _ _
    have hval := rt_val v fuel
      (',' :: ' ' :: (dumpsMembers (.cons k2 v2 tl2) ++ '\x7d' :: rest))
      hwf.1 (by omega) rfl
    have hsk1 : skipWs (':' :: ' ' :: (dumpsChars v
          ++ ',' :: ' ' :: (dumpsMembers (.cons k2 v2 tl2) ++ '\x7d' :: rest)))
        = ':' :: ' ' :: (dumpsChars v
          ++ ',' :: ' ' :: (dumpsMembers (.cons k2 v2 tl2) ++ '\x7d' :: rest)) :=
      skipWs_no _ _ (by decide)
    have hsk2 : skipWs (',' :: ' ' :: (dumpsMembers (.cons k2 v2 tl2) ++ '\x7d' :: rest))
        = ',' :: ' ' :: (dumpsMembers (.cons k2 v2 tl2) ++ '\x7d' :: rest) :=
      skipWs_no _ _ (by decide)
    have hskr : skipWs (' ' :: (dumpsMembers (.cons k2 v2 tl2) ++ '\x7d' :: rest))
        = dumpsMembers (.cons k2 v2 tl2) ++ '\x7d' :: rest := by
      obtain ⟨y, hy⟩ := dumpsMembers_cons_eq k2 v2 tl2
      rw [show skipWs (' ' :: (dumpsMembers (.cons k2 v2 tl2) ++ '\x7d' :: rest))
            = skipWs (dumpsMembers (.cons k2 v2 tl2) ++ '\x7d' :: rest) from rfl,
        hy, List.cons_append, skipWs_no _ _ (by decide)]
    have hrec : parseMembers fuel (dumpsMembers (.cons k2 v2 tl2) ++ '\x7d' :: rest)
        = some (.cons k2 v2 tl2, rest) := by
      cases fuel with
      | zero => omega
      | succ g =>
        exact rt_members k2 v2 tl2 g rest
          (by simp only [wfM, Bool.and_eq_true]; exact hwf.2) (by omega)
    rw [harg, parseMembers_step]
    simp only [hps, hsk1, parseVal_space, hval, hsk2, hskr, hrec]
termination_by k v tl fuel _ _ _ => sizeOf v + sizeOf tl + 1
decreasing_by all_goals (simp_wf; omega)
end

/-- `json.loads` recovers any well-formed value from its `json.dumps`
serialization. -/
theorem loads_dumps (v : Json) (h : wfJ v = true) : loads (dumps v) = some v := by
  have hp := rt_val v ((dumpsChars v).length + 1) [] h (by omega) rfl
  rw [List.append_nil] at hp
  simp only [loads]
  rw [show (dumps v).data = dumpsChars v from rfl, hp]
  rfl

/-- C5: for a Document whose `splits` key maps to a list and an in-range
index, `get_split N` prints exactly `json.dumps(splits[N])` with exit 0,
and `json.loads` of that text gives back a value deep-equal to
`splits[N]` (well-formedness rules out duplicate keys, which no parsed
Document contains). -/
theorem get_split_roundtrip (p f s : String) (ms : JsonMembers) (xs : JsonList)
    (n : Int) (v : Json) (hidx : pyInt s = some n)
    (hsp : ms.lookup "splits" = some (.arr xs))
    (h0 : 0 ≤ n) (hget : xs.get? n.toNat = some v) (hwf : wfJ v = true) :
    runMain [p, f, "get_split", s] (.ok (.obj ms)) = .exits [dumps v] [] 0
    ∧ loads (dumps v) = some v := by
  constructor
  · have hlt : n.toNat < xs.length := JsonList.get?_some_lt hget
    have hn : n < (xs.length : Int) := by omega
    have hneg : ¬ n < 0 := by omega
    rw [runMain_get_split_red, hidx]
    simp [getSplitBody, pyContains, JsonMembers.hasKey, hsp, pySubscriptStr, pyLen, h0,
      hn, pySubscriptInt, pyListGet, pyListGet.pick, hneg, hget]
  · exact loads_dumps v hwf

/-- C5 witness: the Document `{"splits": [{"x": 1}, {"name": "intro"}]}`
with index 1; the printed text re-parses to the element. -/
theorem get_split_roundtrip_case :
    runMain ["json-parser.py", "splits.json", "get_split", "1"]
        (.ok (.obj (.cons "splits"
          (.arr (.cons (.obj (.cons "x" (.num 1) .nil))
            (.cons (.obj (.cons "name" (.str "intro") .nil)) .nil))) .nil)))
      = .exits [dumps (.obj (.cons "name" (.str "intro") .nil))] [] 0
    ∧ loads (dumps (.obj (.cons "name" (.str "intro") .nil)))
      = some (.obj (.cons "name" (.str "intro") .nil)) :=
  get_split_roundtrip "json-parser.py" "splits.json" "1"
    (.cons "splits" (.arr (.cons (.obj (.cons "x" (.num 1) .nil))
      (.cons (.obj (.cons "name" (.str "intro") .nil)) .nil))) .nil)
    (.cons (.obj (.cons "x" (.num 1) .nil))
      (.cons (.obj (.cons "name" (.str "intro") .nil)) .nil))
    1 (.obj (.cons "name" (.str "intro") .nil)) rfl rfl (by decide) rfl (by decide)

/-- C1: on a Document that is an object whose `splits` key holds a list,
`get_split N` prints `json.dumps` of element `N` and exits 0 when
`0 <= N < len(splits)`, and prints the literal `{}` with exit 0 otherwise;
the same `{}` with exit 0 results when the object has no `splits` key. -/
theorem get_split_query_spec (p f s : String) (ms : JsonMembers) (xs : JsonList)
    (n : Int) (hidx : pyInt s = some n) (hsp : ms.lookup "splits" = some (.arr xs)) :
    (∀ v : Json, 0 ≤ n → xs.get? n.toNat = some v →
        runMain [p, f, "get_split", s] (.ok (.obj ms)) = .exits [dumps v] [] 0)
    ∧ (¬ (0 ≤ n ∧ n < (xs.length : Int)) →
        runMain [p, f, "get_split", s] (.ok (.obj ms)) = .exits ["\x7b\x7d"] [] 0)
    ∧ (∀ ms2 : JsonMembers, ms2.lookup "splits" = none →
        runMain [p, f, "get_split", s] (.ok (.obj ms2)) = .exits ["\x7b\x7d"] [] 0) := by
  refine ⟨fun v h0 hget => ?_, fun hout => ?_, fun ms2 h2 => ?_⟩
  · have hlt : n.toNat < xs.length := JsonList.get?_some_lt hget
    have hn : n < (xs.length : Int) := by omega
    have hneg : ¬ n < 0 := by omega
    rw [runMain_get_split_red, hidx]
    simp [getSplitBody, pyContains, JsonMembers.hasKey, hsp, pySubscriptStr, pyLen, h0,
      hn, pySubscriptInt, pyListGet, pyListGet.pick, hneg, hget]
  · rw [runMain_get_split_red, hidx]
    by_cases h0 : 0 ≤ n
    · have hn : ¬ n < (xs.length : Int) := fun hlt => hout ⟨h0, hlt⟩
      simp [getSplitBody, pyContains, JsonMembers.hasKey, hsp, pySubscriptStr, pyLen, h0, hn]
    · simp [getSplitBody, pyContains, JsonMembers.hasKey, hsp, h0]
  · rw [runMain_get_split_red, hidx]
    simp [getSplitBody, pyContains, JsonMembers.hasKey, h2]

/-- C1 witness: the spec at the Document `{"splits": [{"x": 1}, {"x": 2}]}`
with index 1 (in range), index 5 (out of range), and a Document without the
key. -/
theorem get_split_query_spec_case :
    runMain ["json-parser.py", "splits.json", "get_split", "1"]
        (.ok (.obj (.cons "splits"
          (.arr (.cons (.obj (.cons "x" (.num 1) .nil))
            (.cons (.obj (.cons "x" (.num 2) .nil)) .nil))) .nil)))
      = .exits [dumps (.obj (.cons "x" (.num 2) .nil))] [] 0
    ∧ runMain ["json-parser.py", "splits.json", "get_split", "5"]
        (.ok (.obj (.cons "splits"
          (.arr (.cons (.obj (.cons "x" (.num 1) .nil))
            (.cons (.obj (.cons "x" (.num 2) .nil)) .nil))) .nil)))
      = .exits ["\x7b\x7d"] [] 0
    ∧ runMain ["json-parser.py", "splits.json", "get_split", "1"] (.ok (.obj .nil))
      = .exits ["\x7b\x7d"] [] 0 :=
  ⟨((get_split_query_spec "json-parser.py" "splits.json" "1"
      (.cons "splits" (.arr (.cons (.obj (.cons "x" (.num 1) .nil))
        (.cons (.obj (.cons "x" (.num 2) .nil)) .nil))) .nil)
      (.cons (.obj (.cons "x" (.num 1) .nil))
        (.cons (.obj (.cons "x" (.num 2) .nil)) .nil)) 1 rfl rfl).1
      (.obj (.cons "x" (.num 2) .nil)) (by decide) rfl),
   ((get_split_query_spec "json-parser.py" "splits.json" "5"
      (.cons "splits" (.arr (.cons (.obj (.cons "x" (.num 1) .nil))
        (.cons (.obj (.cons "x" (.num 2) .nil)) .nil))) .nil)
      (.cons (.obj (.cons "x" (.num 1) .nil))
        (.cons (.obj (.cons "x" (.num 2) .nil)) .nil)) 5 rfl rfl).2.1 (by decide)),
   ((get_split_query_spec "json-parser.py" "splits.json" "1"
      (.cons "splits" (.arr .nil) .nil) .nil 1 rfl rfl).2.2 .nil rfl)⟩

/-- C3: on a Document that is an object whose `splits` key holds a list of
objects, `get_field N field` with `0 <= N < len(splits)` prints the field's
value through Python's `str` when present (a string field prints verbatim
and unquoted, at every code point; any other value prints `str(value)`,
stated on the `strExact` domain where the model of `repr` is exact) and an
empty string when absent, and prints an empty string when the index is out
of range or the `splits` key is absent; exit 0 in all these cases. -/
theorem get_field_query_spec (p f s fld : String) (ms : JsonMembers) (xs : JsonList)
    (n : Int) (hidx : pyInt s = some n) (hsp : ms.lookup "splits" = some (.arr xs)) :
    (∀ (sp : JsonMembers) (str : String), 0 ≤ n → xs.get? n.toNat = some (.obj sp) →
        sp.lookup fld = some (.str str) →
        runMain [p, f, "get_field", s, fld] (.ok (.obj ms)) = .exits [str] [] 0)
    ∧ (∀ (sp : JsonMembers) (v : Json), 0 ≤ n → xs.get? n.toNat = some (.obj sp) →
        sp.lookup fld = some v → strExact v = true →
        runMain [p, f, "get_field", s, fld] (.ok (.obj ms)) = .exits [pyStr v] [] 0)
    ∧ (∀ sp : JsonMembers, 0 ≤ n → xs.get? n.toNat = some (.obj sp) →
        sp.lookup fld = none →
        runMain [p, f, "get_field", s, fld] (.ok (.obj ms)) = .exits [""] [] 0)
    ∧ (¬ (0 ≤ n ∧ n < (xs.length : Int)) →
        runMain [p, f, "get_field", s, fld] (.ok (.obj ms)) = .exits [""] [] 0)
    ∧ (∀ ms2 : JsonMembers, ms2.lookup "splits" = none →
        runMain [p, f, "get_field", s, fld] (.ok (.obj ms2)) = .exits [""] [] 0) := by
  refine ⟨fun sp str h0 hget hfld => ?_, fun sp v h0 hget hfld _ => ?_,
    fun sp h0 hget hfld => ?_, fun hout => ?_, fun ms2 h2 => ?_⟩
  · have hlt : n.toNat < xs.length := JsonList.get?_some_lt hget
    have hn : n < (xs.length : Int) := by omega
    have hneg : ¬ n < 0 := by omega
    rw [runMain_get_field_red, hidx]
    simp [getFieldBody, pyContains, JsonMembers.hasKey, hsp, pySubscriptStr, pyLen, h0,
      hn, pySubscriptInt, pyListGet, pyListGet.pick, hneg, hget, pyGet, hfld, pyStr]
  · have hlt : n.toNat < xs.length := JsonList.get?_some_lt hget
    have hn : n < (xs.length : Int) := by omega
    have hneg : ¬ n < 0 := by omega
    rw [runMain_get_field_red, hidx]
    simp [getFieldBody, pyContains, JsonMembers.hasKey, hsp, pySubscriptStr, pyLen, h0,
      hn, pySubscriptInt, pyListGet, pyListGet.pick, hneg, hget, pyGet, hfld]
  · have hlt : n.toNat < xs.length := JsonList.get?_some_lt hget
    have hn : n < (xs.length : Int) := by omega
    have hneg : ¬ n < 0 := by omega
    rw [runMain_get_field_red, hidx]
    simp [getFieldBody, pyContains, JsonMembers.hasKey, hsp, pySubscriptStr, pyLen, h0,
      hn, pySubscriptInt, pyListGet, pyListGet.pick, hneg, hget, pyGet, hfld]
  · rw [runMain_get_field_red, hidx]
    by_cases h0 : 0 ≤ n
    · have hn : ¬ n < (xs.length : Int) := fun hlt => hout ⟨h0, hlt⟩
      simp [getFieldBody, pyContains, JsonMembers.hasKey, hsp, pySubscriptStr, pyLen, h0, hn]
    · simp [getFieldBody, pyContains, JsonMembers.hasKey, hsp, h0]
  · rw [runMain_get_field_red, hidx]
    simp [getFieldBody, pyContains, JsonMembers.hasKey, h2]

/-- C3 witness: the spec at `{"splits": [{"name": "intro"}]}` with the
present field `name`, the absent field `missing`, the out-of-range index 9,
a Document without the key, and a compound Latin-1 field value
`["café"]` printed through `str`. -/
theorem get_field_query_spec_case :
    runMain ["json-parser.py", "splits.json", "get_field", "0", "name"]
        (.ok (.obj (.cons "splits"
          (.arr (.cons (.obj (.cons "name" (.str "intro") .nil)) .nil)) .nil)))
      = .exits ["intro"] [] 0
    ∧ runMain ["json-parser.py", "splits.json", "get_field", "0", "tags"]
        (.ok (.obj (.cons "splits"
          (.arr (.cons (.obj (.cons "tags"
            (.arr (.cons (.str "café") .nil)) .nil)) .nil)) .nil)))
      = .exits [pyStr (.arr (.cons (.str "café") .nil))] [] 0
    ∧ runMain ["json-parser.py", "splits.json", "get_field", "0", "missing"]
        (.ok (.obj (.cons "splits"
          (.arr (.cons (.obj (.cons "name" (.str "intro") .nil)) .nil)) .nil)))
      = .exits [""] [] 0
    ∧ runMain ["json-parser.py", "splits.json", "get_field", "9", "name"]
        (.ok (.obj (.cons "splits"
          (.arr (.cons (.obj (.cons "name" (.str "intro") .nil)) .nil)) .nil)))
      = .exits [""] [] 0
    ∧ runMain ["json-parser.py", "splits.json", "get_field", "0", "name"]
        (.ok (.obj .nil))
      = .exits [""] [] 0 :=
  ⟨((get_field_query_spec "json-parser.py" "splits.json" "0" "name"
      (.cons "splits"
        (.arr (.cons (.obj (.cons "name" (.str "intro") .nil)) .nil)) .nil)
      (.cons (.obj (.cons "name" (.str "intro") .nil)) .nil) 0 rfl rfl).1
      (.cons "name" (.str "intro") .nil) "intro" (by decide) rfl rfl),
   ((get_field_query_spec "json-parser.py" "splits.json" "0" "tags"
      (.cons "splits"
        (.arr (.cons (.obj (.cons "tags"
          (.arr (.cons (.str "café") .nil)) .nil)) .nil)) .nil)
      (.cons (.obj (.cons "tags" (.arr (.cons (.str "café") .nil)) .nil)) .nil)
      0 rfl rfl).2.1
      (.cons "tags" (.arr (.cons (.str "café") .nil)) .nil)
      (.arr (.cons (.str "café") .nil)) (by decide) rfl rfl (by decide)),
   ((get_field_query_spec "json-parser.py" "splits.json" "0" "missing"
      (.cons "splits"
        (.arr (.cons (.obj (.cons "name" (.str "intro") .nil)) .nil)) .nil)
      (.cons (.obj (.cons "name" (.str "intro") .nil)) .nil) 0 rfl rfl).2.2.1
      (.cons "name" (.str "intro") .nil) (by decide) rfl rfl),
   ((get_field_query_spec "json-parser.py" "splits.json" "9" "name"
      (.cons "splits"
        (.arr (.cons (.obj (.cons "name" (.str "intro") .nil)) .nil)) .nil)
      (.cons (.obj (.cons "name" (.str "intro") .nil)) .nil) 9 rfl rfl).2.2.2.1
        (by decide)),
   ((get_field_query_spec "json-parser.py" "splits.json" "0" "name"
      (.cons "splits" (.arr .nil) .nil) .nil 0 rfl rfl).2.2.2.2 .nil rfl)⟩

/-- C9: a field present with JSON value `null` prints the text `None`
(Python's stringification of `None`), not an empty string. -/
theorem get_field_null_prints_none (p f s fld : String) (ms sp : JsonMembers)
    (xs : JsonList) (n : Int) (hidx : pyInt s = some n)
    (hsp : ms.lookup "splits" = some (.arr xs)) (h0 : 0 ≤ n)
    (hget : xs.get? n.toNat = some (.obj sp)) (hfld : sp.lookup fld = some .null) :
    runMain [p, f, "get_field", s, fld] (.ok (.obj ms)) = .exits ["None"] [] 0
    ∧ "None" ≠ "" := by
  refine ⟨?_, by decide⟩
  have hlt : n.toNat < xs.length := JsonList.get?_some_lt hget
  have hn : n < (xs.length : Int) := by omega
  have hneg : ¬ n < 0 := by omega
  rw [runMain_get_field_red, hidx]
  simp [getFieldBody, pyContains, JsonMembers.hasKey, hsp, pySubscriptStr, pyLen, h0,
    hn, pySubscriptInt, pyListGet, pyListGet.pick, hneg, hget, pyGet, hfld, pyStr, pyRepr]

/-- C9 witness: `{"splits": [{"note": null}]}` with `get_field 0 note`. -/
theorem get_field_null_prints_none_case :
    runMain ["json-parser.py", "splits.json", "get_field", "0", "note"]
        (.ok (.obj (.cons "splits"
          (.arr (.cons (.obj (.cons "note" .null .nil)) .nil)) .nil)))
      = .exits ["None"] [] 0 :=
  (get_field_null_prints_none "json-parser.py" "splits.json" "0" "note"
    (.cons "splits" (.arr (.cons (.obj (.cons "note" .null .nil)) .nil)) .nil)
    (.cons "note" .null .nil)
    (.cons (.obj (.cons "note" .null .nil)) .nil) 0 rfl rfl (by decide) rfl rfl).1

/-- C10: the program is deterministic.  `runMain` is a mathematical function
of the command line and the load result, and the load result is the image
of the file content under any fixed loading function, so two invocations
with equal file content and equal arguments produce equal standard output,
standard error and exit code. -/
theorem determinism_spec (load : String → LoadResult) (a1 a2 : List String)
    (c1 c2 : String) (hc : c1 = c2) (ha : a1 = a2) :
    runMain a1 (load c1) = runMain a2 (load c2) := by
  subst hc
  subst ha
  rfl

/-- C10 witness: determinism at a concrete invocation. -/
theorem determinism_spec_case :
    runMain ["json-parser.py", "a.json", "validate"]
        ((fun _ => LoadResult.ok .null) "content")
      = runMain ["json-parser.py", "a.json", "validate"]
          ((fun _ => LoadResult.ok .null) "content") :=
  determinism_spec (fun _ => LoadResult.ok .null)
    ["json-parser.py", "a.json", "validate"] ["json-parser.py", "a.json", "validate"]
    "content" "content" rfl rfl
